import Mathlib

/-!
Verification development for the Oracle MCP stdio bridge
(`oracle_mcp_server.py`) and the two collaborator routines it shares files
with (`oracle_telegram.py`: `_log_conversation`, `check_pending_messages`).

The embedding models:
  * the byte stream as a `List Char` (the Python server writes only ASCII
    frames because `json.dumps` uses `ensure_ascii=True`, so characters and
    bytes agree on everything the server emits);
  * JSON values as the inductive `Json` (numbers restricted to integers,
    which covers every value the server itself places on the wire);
  * the two backing files as `FileContent`: missing, unparsable, or a
    parsed JSON document (`json.dumps`/`json.loads` round-tripping of the
    stored document is established independently by the wire-level proofs);
  * wall-clock readings (`time.time()`) as explicit `Int` parameters;
  * Python exceptions as `Except Unit`.
-/

namespace OracleMCP

/-! ## Character primitives -/

/-- JSON and `str.strip` whitespace: space, tab, LF, CR. -/
def isWsCh (c : Char) : Bool :=
  c = ' ' || c = '\t' || c = '\n' || c = '\r'

/-- ASCII decimal digit test. -/
def isDigitCh (c : Char) : Bool :=
  48 ≤ c.toNat && c.toNat ≤ 57

/-- Numeric value of an ASCII digit. -/
def digVal (c : Char) : Nat := c.toNat - 48

/-- The ASCII digit for a value below ten. -/
def digitChar : Nat → Char
  | 0 => '0' | 1 => '1' | 2 => '2' | 3 => '3' | 4 => '4'
  | 5 => '5' | 6 => '6' | 7 => '7' | 8 => '8' | _ => '9'

/-- Lower-case hex digit for a value below sixteen (as `"%04x"` emits). -/
def hexDigitChar : Nat → Char
  | 0 => '0' | 1 => '1' | 2 => '2' | 3 => '3' | 4 => '4'
  | 5 => '5' | 6 => '6' | 7 => '7' | 8 => '8' | 9 => '9'
  | 10 => 'a' | 11 => 'b' | 12 => 'c' | 13 => 'd' | 14 => 'e' | _ => 'f'

/-- Hex digit value, accepting both cases as `json.loads` does. -/
def decodeHexDigit (c : Char) : Option Nat :=
  if 48 ≤ c.toNat && c.toNat ≤ 57 then some (c.toNat - 48)
  else if 97 ≤ c.toNat && c.toNat ≤ 102 then some (c.toNat - 87)
  else if 65 ≤ c.toNat && c.toNat ≤ 70 then some (c.toNat - 55)
  else none

/-- ASCII lower-casing of one character (`str.lower` on header text). -/
def lowerCh (c : Char) : Char :=
  if 65 ≤ c.toNat && c.toNat ≤ 90 then Char.ofNat (c.toNat + 32) else c

/-- Total constructor for a character from a code point. -/
def mkChar (n : Nat) : Char := Char.ofNat n

theorem mkChar_toNat (n : Nat) (h : n.isValidChar) : (mkChar n).toNat = n := by
  simp only [mkChar, Char.ofNat, h, dif_pos, Char.ofNatAux, Char.toNat]
  rfl

theorem mkChar_of_toNat (c : Char) : mkChar c.toNat = c := by
  have h : c.toNat.isValidChar := c.valid
  apply Char.ext
  have h2 := mkChar_toNat c.toNat h
  simp only [Char.toNat] at h2
  exact UInt32.toNat.inj h2

theorem char_valid_ranges (c : Char) :
    c.toNat < 0xD800 ∨ (0xE000 ≤ c.toNat ∧ c.toNat < 0x110000) := c.valid

/-! ## Decimal rendering of naturals and integers

`natReprAux` mirrors Python decimal rendering of a non-negative integer;
the fuel argument only forces structural termination and any fuel above
the number itself is enough. -/

def natReprAux : Nat → Nat → List Char
  | 0, _ => []
  | fuel + 1, n =>
      if n < 10 then [digitChar n]
      else natReprAux fuel (n / 10) ++ [digitChar (n % 10)]

/-- Decimal rendering of a natural number, as Python `str`/`repr` emit. -/
def natRepr (n : Nat) : List Char := natReprAux (n + 1) n

/-- Decimal rendering of an integer (Python `str(int)` / `json.dumps`). -/
def intRepr (n : Int) : List Char :=
  if n < 0 then '-' :: natRepr n.natAbs else natRepr n.natAbs

/-- Greedy decimal scan, accumulating into `acc`, stopping at the first
non-digit; mirrors both `int()` digit consumption and the JSON number
scanner. -/
def parseDigitsAux (acc : Nat) : List Char → Nat × List Char
  | [] => (acc, [])
  | c :: cs =>
      if isDigitCh c then parseDigitsAux (acc * 10 + digVal c) cs
      else (acc, c :: cs)

theorem digitChar_digVal (n : Nat) (h : n < 10) : digVal (digitChar n) = n := by
  interval_cases n <;> decide

theorem isDigitCh_digitChar (n : Nat) (h : n < 10) : isDigitCh (digitChar n) = true := by
  interval_cases n <;> decide

theorem natReprAux_ne_nil (fuel n : Nat) (h : n < fuel) : natReprAux fuel n ≠ [] := by
  cases fuel with
  | zero => omega
  | succ f =>
      simp only [natReprAux]
      split <;> simp

theorem natReprAux_all_digits (fuel n : Nat) (h : n < fuel) :
    ∀ c ∈ natReprAux fuel n, isDigitCh c = true := by
  induction fuel generalizing n with
  | zero => omega
  | succ f ih =>
      intro c hc
      simp only [natReprAux] at hc
      split at hc
      · rcases List.mem_singleton.mp hc with rfl
        exact isDigitCh_digitChar n (by omega)
      · rename_i hn
        rcases List.mem_append.mp hc with h1 | h1
        · exact ih (n / 10) (by omega) c h1
        · rcases List.mem_singleton.mp h1 with rfl
          exact isDigitCh_digitChar (n % 10) (by omega)

/-- Scanning the decimal rendering continues into the rest with the value
absorbed into the accumulator. -/
theorem parseDigitsAux_natReprAux (fuel : Nat) :
    ∀ n acc rest, n < fuel →
      parseDigitsAux acc (natReprAux fuel n ++ rest) =
        parseDigitsAux (acc * 10 ^ (natReprAux fuel n).length + n) rest := by
  induction fuel with
  | zero => intro n _ _ h; omega
  | succ f ih =>
      intro n acc rest h
      by_cases hn : n < 10
      · simp only [natReprAux, if_pos hn, List.singleton_append, List.length_singleton,
          parseDigitsAux, isDigitCh_digitChar n hn, if_pos, digitChar_digVal n hn]
        norm_num
      · have hrec : n / 10 < f := by omega
        simp only [natReprAux, if_neg hn, List.append_assoc, List.singleton_append,
          List.length_append, List.length_singleton]
        rw [ih (n / 10) acc (digitChar (n % 10) :: rest) hrec]
        simp only [parseDigitsAux, isDigitCh_digitChar (n % 10) (by omega), if_pos,
          digitChar_digVal (n % 10) (by omega)]
        congr 1
        have : 10 ^ ((natReprAux f (n / 10)).length + 1) =
            10 ^ (natReprAux f (n / 10)).length * 10 := by ring
        rw [this]
        have hdm : n / 10 * 10 + n % 10 = n := by omega
        ring_nf
        omega

theorem parseDigitsAux_natRepr (n : Nat) (acc : Nat) (rest : List Char) :
    parseDigitsAux acc (natRepr n ++ rest) =
      parseDigitsAux (acc * 10 ^ (natRepr n).length + n) rest :=
  parseDigitsAux_natReprAux (n + 1) n acc rest (by omega)

theorem parseDigitsAux_stop (acc : Nat) (rest : List Char)
    (h : ∀ c r, rest = c :: r → isDigitCh c = false) :
    parseDigitsAux acc rest = (acc, rest) := by
  cases rest with
  | nil => rfl
  | cons c r => simp [parseDigitsAux, h c r rfl]

theorem natRepr_ne_nil (n : Nat) : natRepr n ≠ [] :=
  natReprAux_ne_nil (n + 1) n (by omega)

theorem natRepr_all_digits (n : Nat) : ∀ c ∈ natRepr n, isDigitCh c = true :=
  natReprAux_all_digits (n + 1) n (by omega)

theorem digit_ne_specials {c : Char} (h : isDigitCh c = true) :
    c ≠ '\n' ∧ c ≠ '\r' ∧ c ≠ ':' ∧ c ≠ '-' ∧ c ≠ '.' ∧ c ≠ 'e' ∧ c ≠ 'E' ∧
      isWsCh c = false := by
  have hne : ∀ d : Char, isDigitCh d = false → c ≠ d := by
    intro d hd hc
    subst hc
    rw [h] at hd
    cases hd
  refine ⟨hne _ (by decide), hne _ (by decide), hne _ (by decide), hne _ (by decide),
    hne _ (by decide), hne _ (by decide), hne _ (by decide), ?_⟩
  cases hw : isWsCh c
  · rfl
  · exfalso
    simp only [isWsCh, Bool.or_eq_true, decide_eq_true_eq] at hw
    rcases hw with ((hc | hc) | hc) | hc <;> (subst hc; exact absurd h (by decide))

/-! ## List-of-characters helpers mirroring Python string operations -/

/-- `leadsWith pre l` : `l.startswith(pre)`. -/
def leadsWith : List Char → List Char → Bool
  | [], _ => true
  | _ :: _, [] => false
  | a :: as, b :: bs => a = b && leadsWith as bs

/-- `trailsWith suf l` : `l.endswith(suf)`. -/
def trailsWith (suf l : List Char) : Bool :=
  leadsWith suf.reverse l.reverse

/-- Left `str.strip` pass. -/
def lstrip (l : List Char) : List Char := l.dropWhile isWsCh

/-- Right `str.strip` pass. -/
def rstrip (l : List Char) : List Char := (l.reverse.dropWhile isWsCh).reverse

/-- Python `str.strip()`. -/
def pyStrip (l : List Char) : List Char := lstrip (rstrip l)

/-- Python `str.split(sep)` with a one-character separator: always returns
at least one (possibly empty) segment. -/
def pySplit (sep : Char) : List Char → List (List Char)
  | [] => [[]]
  | c :: r =>
      match pySplit sep r with
      | [] => [[]]
      | g :: gs => if c = sep then [] :: g :: gs else (c :: g) :: gs

/-- `line.split(":")[1]`: the segment strictly between the first and second
colon (or the end).  Only evaluated on lines known to contain a colon. -/
def afterColon (l : List Char) : List Char :=
  ((l.dropWhile (fun c => !(c = ':'))).drop 1).takeWhile (fun c => !(c = ':'))

/-- Python `int(text)` on already-stripped text: optional sign then a
non-empty run of digits, nothing else. -/
def natDigits (ds : List Char) : Option Nat :=
  match ds with
  | [] => none
  | c :: _ =>
      if isDigitCh c then
        match parseDigitsAux 0 ds with
        | (v, []) => some v
        | _ => none
      else none

def pyInt (l : List Char) : Option Int :=
  match l with
  | [] => none
  | c :: ds =>
      if c = '-' then (natDigits ds).map (fun n => -(n : Int))
      else if c = '+' then (natDigits ds).map (fun n => (n : Int))
      else (natDigits (c :: ds)).map (fun n => (n : Int))

/-- Python slice `l[start:]` for an arbitrary (possibly negative) start. -/
def pyTail (l : List α) (start : Int) : List α :=
  if 0 ≤ start then l.drop start.toNat
  else l.drop (l.length - (-start).toNat)

/-- The last `n` elements: `l[-n:]` for positive `n`. -/
def takeLast (n : Nat) (l : List α) : List α := l.drop (l.length - n)

/-- ASCII `str.lower()`. -/
def asciiLower (l : List Char) : List Char := l.map lowerCh

theorem leadsWith_append (p rest : List Char) : leadsWith p (p ++ rest) = true := by
  induction p with
  | nil => rfl
  | cons c cs ih => simp [leadsWith, ih]

theorem leadsWith_cons_ne {a b : Char} (as bs : List Char) (h : a ≠ b) :
    leadsWith (a :: as) (b :: bs) = false := by
  simp [leadsWith, h]

theorem leadsWith_nil_right {a : Char} (as : List Char) :
    leadsWith (a :: as) [] = false := rfl

theorem trailsWith_append (suf l : List Char) : trailsWith suf (l ++ suf) = true := by
  simp only [trailsWith, List.reverse_append]
  exact leadsWith_append suf.reverse l.reverse

/-- Dropping a shared two-character tail from both sides of an `endswith`. -/
theorem trailsWith_snoc2 (x y a b : Char) (s l : List Char) :
    trailsWith (s ++ [x, y]) (l ++ [a, b]) =
      ((y = b) && (x = a) && trailsWith s l) := by
  simp only [trailsWith, List.reverse_append, List.reverse_cons, List.reverse_nil,
    List.nil_append, List.cons_append, leadsWith]
  cases decide (y = b) <;> cases decide (x = a) <;> simp_all [leadsWith]

theorem trailsWith_two_of_last_ne (x y : Char) (l : List Char) (d : Char)
    (hy : d ≠ y) : trailsWith [x, y] (l ++ [d]) = false := by
  have hd : decide (y = d) = false := decide_eq_false (fun hc => hy hc.symm)
  simp only [trailsWith, List.reverse_append, List.reverse_cons, List.reverse_nil,
    List.nil_append, List.reverse_singleton, List.singleton_append, leadsWith]
  simp [hd]

theorem trailsWith_two_nil (x y : Char) : trailsWith [x, y] [] = false := rfl

theorem trailsWith_two_singleton (x y d : Char) : trailsWith [x, y] [d] = false := by
  simp [trailsWith, leadsWith]

theorem pySplit_no_sep (sep : Char) (l : List Char) (h : sep ∉ l) :
    pySplit sep l = [l] := by
  induction l with
  | nil => rfl
  | cons c r ih =>
      have hc : c ≠ sep := fun hc => h (hc ▸ List.mem_cons_self c r)
      have hr : sep ∉ r := fun hr => h (List.mem_cons_of_mem c hr)
      simp [pySplit, ih hr, hc]

theorem dropWhile_append_of_all {p : Char → Bool} (l r : List Char)
    (h : ∀ c ∈ l, p c = true) : (l ++ r).dropWhile p = r.dropWhile p := by
  induction l with
  | nil => rfl
  | cons c cs ih =>
      simp only [List.cons_append, List.dropWhile_cons, h c (List.mem_cons_self c cs)]
      exact ih (fun d hd => h d (List.mem_cons_of_mem c hd))

theorem dropWhile_cons_neg {p : Char → Bool} (c : Char) (l : List Char)
    (h : p c = false) : (c :: l).dropWhile p = c :: l := by
  simp [List.dropWhile_cons, h]

theorem rstrip_append_ws (l ws : List Char) (h : ∀ c ∈ ws, isWsCh c = true) :
    rstrip (l ++ ws) = rstrip l := by
  simp only [rstrip, List.reverse_append]
  rw [dropWhile_append_of_all ws.reverse l.reverse
      (fun c hc => h c (List.mem_reverse.mp hc))]

theorem rstrip_of_last_not_ws (l : List Char) (d : Char) (h : isWsCh d = false) :
    rstrip (l ++ [d]) = l ++ [d] := by
  simp only [rstrip, List.reverse_append, List.reverse_singleton, List.singleton_append]
  rw [dropWhile_cons_neg d l.reverse h]
  simp

theorem takeLast_all_of_le (n : Nat) (l : List α) (h : l.length ≤ n) :
    takeLast n l = l := by
  simp [takeLast, Nat.sub_eq_zero_of_le h]

theorem takeLast_length_le (n : Nat) (l : List α) : (takeLast n l).length ≤ n := by
  simp only [takeLast, List.length_drop]
  omega

/-! ## JSON string escaping (`json.dumps`, `ensure_ascii=True`) and the
matching scanner (`json.loads`) -/

/-- Four lower-case hex digits, as `"\\uXXXX"` payloads. -/
def hex4 (n : Nat) : List Char :=
  [hexDigitChar (n / 4096 % 16), hexDigitChar (n / 256 % 16),
   hexDigitChar (n / 16 % 16), hexDigitChar (n % 16)]

def decodeHex4 (a b c d : Char) : Option Nat :=
  match decodeHexDigit a, decodeHexDigit b, decodeHexDigit c, decodeHexDigit d with
  | some va, some vb, some vc, some vd => some (((va * 16 + vb) * 16 + vc) * 16 + vd)
  | _, _, _, _ => none

/-- `json.dumps` escaping of one character: quote and backslash escaped,
the five short escapes, printable ASCII verbatim, everything else as
`\\uXXXX` (astral characters as a surrogate pair). -/
def escChar (c : Char) : List Char :=
  if c = '"' then ['\\', '"']
  else if c = '\\' then ['\\', '\\']
  else if c = '\n' then ['\\', 'n']
  else if c = '\r' then ['\\', 'r']
  else if c = '\t' then ['\\', 't']
  else if c = '\x08' then ['\\', 'b']
  else if c = '\x0c' then ['\\', 'f']
  else if 0x20 ≤ c.toNat && c.toNat ≤ 0x7e then [c]
  else if c.toNat < 0x10000 then '\\' :: 'u' :: hex4 c.toNat
  else
    '\\' :: 'u' :: hex4 (0xD800 + (c.toNat - 0x10000) / 0x400) ++
      ('\\' :: 'u' :: hex4 (0xDC00 + (c.toNat - 0x10000) % 0x400))

def escString : List Char → List Char
  | [] => []
  | c :: cs => escChar c ++ escString cs

/-- The two-character escapes `json.loads` accepts. -/
def simpleEsc (e : Char) : Option Char :=
  if e = '"' then some '"'
  else if e = '\\' then some '\\'
  else if e = '/' then some '/'
  else if e = 'b' then some '\x08'
  else if e = 'f' then some '\x0c'
  else if e = 'n' then some '\n'
  else if e = 'r' then some '\r'
  else if e = 't' then some '\t'
  else none

/-- Decoding of one backslash escape (the scanner position is just after
the backslash): yields the decoded character and the remaining text.  A
lone surrogate escape is unrepresentable in `Char` and rejected; the
encoder never emits one. -/
def parseEsc : List Char → Option (Char × List Char)
  | [] => none
  | e :: r2 =>
      if e = 'u' then
        match r2 with
        | a :: b :: c2 :: d :: r3 =>
            match decodeHex4 a b c2 d with
            | none => none
            | some n =>
                if 0xD800 ≤ n && n < 0xDC00 then
                  match r3 with
                  | '\\' :: 'u' :: a2 :: b2 :: c3 :: d2 :: r4 =>
                      match decodeHex4 a2 b2 c3 d2 with
                      | none => none
                      | some m =>
                          if 0xDC00 ≤ m && m < 0xE000 then
                            some (mkChar (0x10000 + (n - 0xD800) * 0x400 + (m - 0xDC00)), r4)
                          else none
                  | _ => none
                else if 0xDC00 ≤ n && n < 0xE000 then none
                else some (mkChar n, r3)
        | _ => none
      else (simpleEsc e).map (fun c2 => (c2, r2))

/-- The `json.loads` string scanner, entered just after the opening quote:
returns the decoded characters and the text after the closing quote.  The
fuel argument only forces termination; one unit is spent per decoded
character, so any fuel above the input length is enough. -/
def parseStringF : Nat → List Char → Option (List Char × List Char)
  | 0, _ => none
  | _ + 1, [] => none
  | fuel + 1, c :: rest =>
      if c = '"' then some ([], rest)
      else if c = '\\' then
        match parseEsc rest with
        | some (c2, r2) => (parseStringF fuel r2).map (fun p => (c2 :: p.1, p.2))
        | none => none
      else if c.toNat < 0x20 then none
      else (parseStringF fuel rest).map (fun p => (c :: p.1, p.2))

def parseStr (l : List Char) : Option (List Char × List Char) :=
  parseStringF (l.length + 1) l

theorem decodeHexDigit_hexDigitChar (k : Nat) (h : k < 16) :
    decodeHexDigit (hexDigitChar k) = some k := by
  interval_cases k <;> decide

theorem decodeHex4_hex4 (n : Nat) (h : n < 0x10000) :
    decodeHex4 (hexDigitChar (n / 4096 % 16)) (hexDigitChar (n / 256 % 16))
      (hexDigitChar (n / 16 % 16)) (hexDigitChar (n % 16)) = some n := by
  simp only [decodeHex4,
    decodeHexDigit_hexDigitChar (n / 4096 % 16) (by omega),
    decodeHexDigit_hexDigitChar (n / 256 % 16) (by omega),
    decodeHexDigit_hexDigitChar (n / 16 % 16) (by omega),
    decodeHexDigit_hexDigitChar (n % 16) (by omega)]
  congr 1
  omega

theorem parseEsc_bmp (n : Nat) (hn : n < 0x10000)
    (hs1 : (decide (0xD800 ≤ n) && decide (n < 0xDC00)) = false)
    (hs2 : (decide (0xDC00 ≤ n) && decide (n < 0xE000)) = false) (t : List Char) :
    parseEsc ('u' :: (hex4 n ++ t)) = some (mkChar n, t) := by
  simp only [hex4, List.cons_append, List.nil_append, parseEsc, reduceIte,
    decodeHex4_hex4 n hn, hs1, hs2, Bool.false_eq_true, if_false]

theorem parseEsc_pair (n m : Nat) (hn1 : 0xD800 ≤ n) (hn2 : n < 0xDC00)
    (hm1 : 0xDC00 ≤ m) (hm2 : m < 0xE000) (t : List Char) :
    parseEsc ('u' :: (hex4 n ++ ('\\' :: 'u' :: (hex4 m ++ t)))) =
      some (mkChar (0x10000 + (n - 0xD800) * 0x400 + (m - 0xDC00)), t) := by
  have hn : n < 0x10000 := by omega
  have hm : m < 0x10000 := by omega
  have hb1 : (decide (0xD800 ≤ n) && decide (n < 0xDC00)) = true := by
    simp only [Bool.and_eq_true, decide_eq_true_eq]
    omega
  have hb2 : (decide (0xDC00 ≤ m) && decide (m < 0xE000)) = true := by
    simp only [Bool.and_eq_true, decide_eq_true_eq]
    omega
  simp only [hex4, List.cons_append, List.nil_append, parseEsc, reduceIte,
    decodeHex4_hex4 n hn, decodeHex4_hex4 m hm, hb1, hb2, if_true]

theorem parseStringF_backslash (fuel : Nat) (rest : List Char) :
    parseStringF (fuel + 1) ('\\' :: rest) =
      match parseEsc rest with
      | some (c2, r2) => (parseStringF fuel r2).map (fun p => (c2 :: p.1, p.2))
      | none => none := rfl

/-- Decoding the escape of any single character prefixes it onto whatever
the scanner does with the remainder. -/
theorem parseStringF_escChar (fuel : Nat) (c : Char) (t : List Char) :
    parseStringF (fuel + 1) (escChar c ++ t) =
      (parseStringF fuel t).map (fun p => (c :: p.1, p.2)) := by
  by_cases h1 : c = '"'
  · subst h1; rfl
  by_cases h2 : c = '\\'
  · subst h2; rfl
  by_cases h3 : c = '\n'
  · subst h3; rfl
  by_cases h4 : c = '\r'
  · subst h4; rfl
  by_cases h5 : c = '\t'
  · subst h5; rfl
  by_cases h6 : c = '\x08'
  · subst h6; rfl
  by_cases h7 : c = '\x0c'
  · subst h7; rfl
  by_cases h8 : (0x20 ≤ c.toNat && c.toNat ≤ 0x7e) = true
  · have hlt : (decide (c.toNat < 0x20)) = false := by
      simp only [Bool.and_eq_true, decide_eq_true_eq] at h8
      simp only [decide_eq_false_iff_not]
      omega
    have hltP : ¬(c.toNat < 0x20) := by
      simp only [Bool.and_eq_true, decide_eq_true_eq] at h8
      omega
    simp only [escChar, if_neg h1, if_neg h2, if_neg h3, if_neg h4, if_neg h5,
      if_neg h6, if_neg h7, if_pos h8, List.singleton_append, parseStringF,
      if_neg h1, if_neg h2, if_neg hltP]
  by_cases h9 : c.toNat < 0x10000
  · have hval := char_valid_ranges c
    have hsur1 : (decide (0xD800 ≤ c.toNat) && decide (c.toNat < 0xDC00)) = false := by
      simp only [Bool.and_eq_false_iff, decide_eq_false_iff_not]
      omega
    have hsur2 : (decide (0xDC00 ≤ c.toNat) && decide (c.toNat < 0xE000)) = false := by
      simp only [Bool.and_eq_false_iff, decide_eq_false_iff_not]
      omega
    simp only [escChar, if_neg h1, if_neg h2, if_neg h3, if_neg h4, if_neg h5,
      if_neg h6, if_neg h7, if_neg h8, if_pos h9, List.cons_append]
    rw [parseStringF_backslash, parseEsc_bmp c.toNat h9 hsur1 hsur2 t,
      mkChar_of_toNat]
  · have hval := char_valid_ranges c
    have hcp : c.toNat < 0x110000 := by omega
    have hcomb : 0x10000 + (0xD800 + (c.toNat - 0x10000) / 0x400 - 0xD800) * 0x400 +
        (0xDC00 + (c.toNat - 0x10000) % 0x400 - 0xDC00) = c.toNat := by omega
    simp only [escChar, if_neg h1, if_neg h2, if_neg h3, if_neg h4, if_neg h5,
      if_neg h6, if_neg h7, if_neg h8, if_neg h9, List.cons_append,
      List.append_assoc, List.cons_append]
    rw [parseStringF_backslash,
      parseEsc_pair (0xD800 + (c.toNat - 0x10000) / 0x400)
        (0xDC00 + (c.toNat - 0x10000) % 0x400)
        (by omega) (by omega) (by omega) (by omega) t]
    rw [hcomb, mkChar_of_toNat]

/-- The scanner inverts the encoder on whole strings once given enough
fuel, leaving the suffix after the closing quote untouched. -/
theorem parseStringF_escString (s : List Char) : ∀ (fuel : Nat) (rest : List Char),
    s.length < fuel →
    parseStringF fuel (escString s ++ '"' :: rest) = some (s, rest) := by
  induction s with
  | nil =>
      intro fuel rest h
      cases fuel with
      | zero => omega
      | succ f => rfl
  | cons c cs ih =>
      intro fuel rest h
      cases fuel with
      | zero => omega
      | succ f =>
          simp only [escString, List.append_assoc]
          rw [parseStringF_escChar f c (escString cs ++ '"' :: rest),
            ih f rest (by simpa using Nat.lt_of_succ_lt_succ h)]
          rfl

theorem escChar_length_pos (c : Char) : 1 ≤ (escChar c).length := by
  simp only [escChar]
  repeat' split
  all_goals simp

theorem escString_length_ge (s : List Char) : s.length ≤ (escString s).length := by
  induction s with
  | nil => simp [escString]
  | cons c cs ih =>
      simp only [escString, List.length_append, List.length_cons]
      have := escChar_length_pos c
      omega

/-- `parseStr` (the scanner at its caller-supplied fuel) inverts the
encoder. -/
theorem parseStr_escString (s rest : List Char) :
    parseStr (escString s ++ '"' :: rest) = some (s, rest) := by
  have h := escString_length_ge s
  exact parseStringF_escString s ((escString s ++ '"' :: rest).length + 1) rest
    (by simp only [List.length_append, List.length_cons]; omega)

/-! ## JSON values

Numbers are restricted to integers: every JSON value this server itself
produces or consumes structurally (requests, responses, the two files) is
covered; floats are outside the model.  Objects are ordered key/value
lists, exactly the information a Python `dict` carries. -/

inductive Json where
  | null
  | bool (b : Bool)
  | num (n : Int)
  | str (s : List Char)
  | arr (elems : List Json)
  | obj (members : List (List Char × Json))

/-- Key membership in an object member list. -/
def keyMem (k : List Char) : List (List Char × Json) → Bool
  | [] => false
  | (k2, _) :: ms => k = k2 || keyMem k ms

/-- Distinctness of the keys of one member list (`dict` invariant). -/
def keysNodup : List (List Char × Json) → Bool
  | [] => true
  | (k, _) :: ms => !keyMem k ms && keysNodup ms

/-- Python `d[k] = v` on a dict rendered as an ordered member list: an
existing key keeps its position and gets the new value, a new key is
appended. -/
def dictInsert (ms : List (List Char × Json)) (k : List Char) (v : Json) :
    List (List Char × Json) :=
  if keyMem k ms then ms.map (fun p => if p.1 = k then (k, v) else p)
  else ms ++ [(k, v)]

/-- Building a dict from parsed pairs, as `json.loads` does. -/
def dictBuild (ms : List (List Char × Json)) : List (List Char × Json) :=
  ms.foldl (fun acc p => dictInsert acc p.1 p.2) []

/-- First-occurrence lookup (`dict.get` / `d[k]`). -/
def jlook (k : List Char) : List (List Char × Json) → Option Json
  | [] => none
  | (k2, v) :: ms => if k = k2 then some v else jlook k ms

/-- Python truthiness of a JSON value. -/
def pyTruthy : Json → Bool
  | .null => false
  | .bool b => b
  | .num n => !(n = 0 : Bool)
  | .str s => !s.isEmpty
  | .arr xs => !xs.isEmpty
  | .obj ms => !ms.isEmpty

mutual

/-- All object member lists have distinct keys, hereditarily — true of
anything that was ever a tree of Python dicts. -/
def wfJ : Json → Bool
  | .null => true
  | .bool _ => true
  | .num _ => true
  | .str _ => true
  | .arr xs => wfL xs
  | .obj ms => keysNodup ms && wfM ms

def wfL : List Json → Bool
  | [] => true
  | x :: xs => wfJ x && wfL xs

def wfM : List (List Char × Json) → Bool
  | [] => true
  | (_, v) :: ms => wfJ v && wfM ms

end

/-! ## `json.dumps` with its default separators and `ensure_ascii=True` -/

mutual

def dumps : Json → List Char
  | .null => 'n' :: 'u' :: 'l' :: 'l' :: []
  | .bool true => 't' :: 'r' :: 'u' :: 'e' :: []
  | .bool false => 'f' :: 'a' :: 'l' :: 's' :: 'e' :: []
  | .num n => intRepr n
  | .str s => '"' :: (escString s ++ ['"'])
  | .arr [] => ['[', ']']
  | .arr (x :: xs) => '[' :: (dumps x ++ (dumpsTail xs ++ [']']))
  | .obj [] => ['\x7b', '\x7d']
  | .obj (m :: ms) => '\x7b' :: (dumpsMem m ++ (dumpsMemsTail ms ++ ['\x7d']))

def dumpsTail : List Json → List Char
  | [] => []
  | x :: xs => ',' :: ' ' :: (dumps x ++ dumpsTail xs)

def dumpsMem : List Char × Json → List Char
  | (k, v) => '"' :: (escString k ++ ('"' :: ':' :: ' ' :: dumps v))

def dumpsMemsTail : List (List Char × Json) → List Char
  | [] => []
  | m :: ms => ',' :: ' ' :: (dumpsMem m ++ dumpsMemsTail ms)

end

/-! ## Python `str()` / `repr()` rendering, used by the f-strings in the
tool handlers.  `repr` of a string is modelled as plain single-quote
wrapping (no claim inspects the rendering of a quote-bearing string). -/

mutual

def pyRepr : Json → List Char
  | .null => 'N' :: 'o' :: 'n' :: 'e' :: []
  | .bool true => 'T' :: 'r' :: 'u' :: 'e' :: []
  | .bool false => 'F' :: 'a' :: 'l' :: 's' :: 'e' :: []
  | .num n => intRepr n
  | .str s => '\x27' :: (s ++ ['\x27'])
  | .arr [] => ['[', ']']
  | .arr (x :: xs) => '[' :: (pyRepr x ++ (pyReprTail xs ++ [']']))
  | .obj [] => ['\x7b', '\x7d']
  | .obj (m :: ms) => '\x7b' :: (pyReprMem m ++ (pyReprMemsTail ms ++ ['\x7d']))

def pyReprTail : List Json → List Char
  | [] => []
  | x :: xs => ',' :: ' ' :: (pyRepr x ++ pyReprTail xs)

def pyReprMem : List Char × Json → List Char
  | (k, v) => '\x27' :: (k ++ ('\x27' :: ':' :: ' ' :: pyRepr v))

def pyReprMemsTail : List (List Char × Json) → List Char
  | [] => []
  | m :: ms => ',' :: ' ' :: (pyReprMem m ++ pyReprMemsTail ms)

end

/-- Python `str()` inside an f-string: identity on strings, `repr`-style
otherwise. -/
def pyStr (j : Json) : List Char :=
  match j with
  | .str s => s
  | _ => pyRepr j

/-! ## The `json.loads` value scanner -/

def skipWs (s : List Char) : List Char := s.dropWhile isWsCh

/-- After the digit run, a fractional part or exponent would make the
number a float, which is outside the model. -/
def numTerm : List Char → Bool
  | [] => true
  | c :: _ => !(c = '.' : Bool) && !(c = 'e' : Bool) && !(c = 'E' : Bool)

def parseNumAux (s : List Char) : Option (Nat × List Char) :=
  match s with
  | [] => none
  | c :: r =>
      if isDigitCh c then
        if numTerm (parseDigitsAux 0 (c :: r)).2 then some (parseDigitsAux 0 (c :: r))
        else none
      else none

/-- JSON number scanning, restricted to the integer grammar (a fractional
part or exponent is outside the model and rejected). -/
def parseNumber (s : List Char) : Option (Json × List Char) :=
  match s with
  | [] => none
  | c :: r =>
      if c = '-' then (parseNumAux r).map (fun p => (Json.num (-(p.1 : Int)), p.2))
      else (parseNumAux (c :: r)).map (fun p => (Json.num (p.1 : Int), p.2))

mutual

def parseValue : Nat → List Char → Option (Json × List Char)
  | 0, _ => none
  | fuel + 1, s =>
      match skipWs s with
      | [] => none
      | c :: r =>
          if c = '"' then (parseStr r).map (fun p => (Json.str p.1, p.2))
          else if c = '\x7b' then parseMembers fuel r
          else if c = '[' then parseElems fuel r
          else if c = 'n' then
            if leadsWith ['u', 'l', 'l'] r then some (.null, r.drop 3) else none
          else if c = 't' then
            if leadsWith ['r', 'u', 'e'] r then some (.bool true, r.drop 3) else none
          else if c = 'f' then
            if leadsWith ['a', 'l', 's', 'e'] r then some (.bool false, r.drop 4) else none
          else parseNumber (c :: r)

def parseElems : Nat → List Char → Option (Json × List Char)
  | 0, _ => none
  | fuel + 1, s =>
      match skipWs s with
      | [] => none
      | c :: r =>
          if c = ']' then some (Json.arr [], r)
          else
            match parseValue fuel (c :: r) with
            | none => none
            | some (v, r1) =>
                match parseElemsTail fuel r1 with
                | none => none
                | some (vs, r2) => some (Json.arr (v :: vs), r2)

def parseElemsTail : Nat → List Char → Option (List Json × List Char)
  | 0, _ => none
  | fuel + 1, s =>
      match skipWs s with
      | [] => none
      | c :: r =>
          if c = ']' then some ([], r)
          else if c = ',' then
            match parseValue fuel r with
            | none => none
            | some (v, r2) =>
                match parseElemsTail fuel r2 with
                | none => none
                | some (vs, r3) => some (v :: vs, r3)
          else none

def parseMembers : Nat → List Char → Option (Json × List Char)
  | 0, _ => none
  | fuel + 1, s =>
      match skipWs s with
      | [] => none
      | c :: r =>
          if c = '\x7d' then some (Json.obj [], r)
          else if c = '"' then
            match parseStr r with
            | none => none
            | some (k, r2) =>
                match skipWs r2 with
                | ':' :: r3 =>
                    match parseValue fuel r3 with
                    | none => none
                    | some (v, r4) =>
                        match parseMemsTail fuel r4 with
                        | none => none
                        | some (ms, r5) => some (Json.obj (dictBuild ((k, v) :: ms)), r5)
                | _ => none
          else none

def parseMemsTail : Nat → List Char → Option (List (List Char × Json) × List Char)
  | 0, _ => none
  | fuel + 1, s =>
      match skipWs s with
      | [] => none
      | c :: r =>
          if c = '\x7d' then some ([], r)
          else if c = ',' then
            match skipWs r with
            | '"' :: r2 =>
                match parseStr r2 with
                | none => none
                | some (k, r3) =>
                    match skipWs r3 with
                    | ':' :: r4 =>
                        match parseValue fuel r4 with
                        | none => none
                        | some (v, r5) =>
                            match parseMemsTail fuel r5 with
                            | none => none
                            | some (ms, r6) => some ((k, v) :: ms, r6)
                    | _ => none
            | _ => none
          else none

end

/-- `json.loads`: scan one value, then require only whitespace to remain. -/
def loads (s : List Char) : Option Json :=
  match parseValue (s.length + 1) s with
  | some (v, r) => if skipWs r = [] then some v else none
  | none => none

/-- A continuation after a serialized value that cannot extend a number
token. -/
def numSafe : List Char → Bool
  | [] => true
  | c :: r => !isDigitCh c && numTerm (c :: r)

/-! ## Round trip of the value scanner over the encoder -/

theorem digit_ne {c d : Char} (h : isDigitCh c = true) (hd : isDigitCh d = false) :
    c ≠ d := by
  intro hc
  subst hc
  rw [h] at hd
  cases hd

theorem skipWs_cons_of_not_ws (c : Char) (t : List Char) (h : isWsCh c = false) :
    skipWs (c :: t) = c :: t := by
  simp [skipWs, List.dropWhile_cons, h]

theorem skipWs_cons_of_ws (c : Char) (t : List Char) (h : isWsCh c = true) :
    skipWs (c :: t) = skipWs t := by
  simp [skipWs, List.dropWhile_cons, h]

theorem dumps_cons (v : Json) : ∃ c t, dumps v = c :: t ∧ isWsCh c = false ∧
    c ≠ ']' ∧ c ≠ '\x7d' ∧ c ≠ ',' := by
  cases v with
  | null => exact ⟨'n', _, rfl, by decide, by decide, by decide, by decide⟩
  | bool b =>
      cases b
      · exact ⟨'f', _, rfl, by decide, by decide, by decide, by decide⟩
      · exact ⟨'t', _, rfl, by decide, by decide, by decide, by decide⟩
  | num n =>
      by_cases hn : n < 0
      · refine ⟨'-', natRepr n.natAbs, ?_, by decide, by decide, by decide, by decide⟩
        simp [dumps, intRepr, if_pos hn]
      · obtain ⟨d, t, hdt⟩ := List.exists_cons_of_ne_nil (natRepr_ne_nil n.natAbs)
        have hd : isDigitCh d = true :=
          natRepr_all_digits n.natAbs d (hdt ▸ List.mem_cons_self d t)
        refine ⟨d, t, by simp [dumps, intRepr, if_neg hn, hdt],
          (digit_ne_specials hd).2.2.2.2.2.2.2, digit_ne hd (by decide),
          digit_ne hd (by decide), digit_ne hd (by decide)⟩
  | str s => exact ⟨'"', _, rfl, by decide, by decide, by decide, by decide⟩
  | arr xs =>
      cases xs
      · exact ⟨'[', _, rfl, by decide, by decide, by decide, by decide⟩
      · exact ⟨'[', _, rfl, by decide, by decide, by decide, by decide⟩
  | obj ms =>
      cases ms
      · exact ⟨'\x7b', _, rfl, by decide, by decide, by decide, by decide⟩
      · exact ⟨'\x7b', _, rfl, by decide, by decide, by decide, by decide⟩

theorem dumps_length_pos (v : Json) : 1 ≤ (dumps v).length := by
  obtain ⟨c, t, h, -⟩ := dumps_cons v
  simp [h]

theorem numTerm_of_numSafe {s : List Char} (h : numSafe s = true) : numTerm s = true := by
  cases s with
  | nil => rfl
  | cons c r =>
      simp only [numSafe, Bool.and_eq_true] at h
      exact h.2

theorem numSafe_head_not_digit {c : Char} {r : List Char}
    (h : numSafe (c :: r) = true) : isDigitCh c = false := by
  cases hc : isDigitCh c
  · rfl
  · simp [numSafe, hc] at h

theorem parseNumAux_natRepr (m : Nat) (rest : List Char) (hs : numSafe rest = true) :
    parseNumAux (natRepr m ++ rest) = some (m, rest) := by
  obtain ⟨d, t, hdt⟩ := List.exists_cons_of_ne_nil (natRepr_ne_nil m)
  have hd : isDigitCh d = true := natRepr_all_digits m d (hdt ▸ List.mem_cons_self d t)
  have hstep : parseDigitsAux 0 (natRepr m ++ rest) = (m, rest) := by
    rw [parseDigitsAux_natRepr]
    simp only [Nat.zero_mul, Nat.zero_add]
    apply parseDigitsAux_stop
    intro c r hr
    subst hr
    exact numSafe_head_not_digit hs
  rw [hdt, List.cons_append, parseNumAux]
  simp only [if_pos hd, ← List.cons_append, ← hdt, hstep, numTerm_of_numSafe hs,
    if_pos]

theorem parseValue_dash (fuel : Nat) (t : List Char) :
    parseValue (fuel + 1) ('-' :: t) =
      (parseNumAux t).map (fun p => (Json.num (-(p.1 : Int)), p.2)) := rfl

theorem parseValue_quote (fuel : Nat) (t : List Char) :
    parseValue (fuel + 1) ('"' :: t) =
      (parseStr t).map (fun p => (Json.str p.1, p.2)) := rfl

theorem parseValue_bracket (fuel : Nat) (t : List Char) :
    parseValue (fuel + 1) ('[' :: t) = parseElems fuel t := rfl

theorem parseValue_brace (fuel : Nat) (t : List Char) :
    parseValue (fuel + 1) ('\x7b' :: t) = parseMembers fuel t := rfl

theorem parseValue_digit_head (fuel : Nat) (d : Char) (t : List Char)
    (hd : isDigitCh d = true) :
    parseValue (fuel + 1) (d :: t) =
      (parseNumAux (d :: t)).map (fun p => (Json.num (p.1 : Int), p.2)) := by
  have hws := (digit_ne_specials hd).2.2.2.2.2.2.2
  simp only [parseValue, skipWs_cons_of_not_ws d t hws]
  rw [if_neg (digit_ne hd (by decide)), if_neg (digit_ne hd (by decide)),
    if_neg (digit_ne hd (by decide)), if_neg (digit_ne hd (by decide)),
    if_neg (digit_ne hd (by decide)), if_neg (digit_ne hd (by decide))]
  simp only [parseNumber]
  rw [if_neg (digit_ne hd (by decide))]

theorem parseValue_num (fuel : Nat) (n : Int) (rest : List Char)
    (hs : numSafe rest = true) :
    parseValue (fuel + 1) (intRepr n ++ rest) = some (.num n, rest) := by
  by_cases hn : n < 0
  · simp only [intRepr, if_pos hn, List.cons_append]
    rw [parseValue_dash, parseNumAux_natRepr n.natAbs rest hs]
    have h2 : -((n.natAbs : Nat) : Int) = n := by omega
    simp only [Option.map_some']
    rw [h2]
  · obtain ⟨d, t, hdt⟩ := List.exists_cons_of_ne_nil (natRepr_ne_nil n.natAbs)
    have hd : isDigitCh d = true :=
      natRepr_all_digits n.natAbs d (hdt ▸ List.mem_cons_self d t)
    simp only [intRepr, if_neg hn]
    rw [hdt, List.cons_append, parseValue_digit_head fuel d (t ++ rest) hd,
      ← List.cons_append, ← hdt, parseNumAux_natRepr n.natAbs rest hs]
    have h2 : ((n.natAbs : Nat) : Int) = n := by omega
    simp only [Option.map_some']
    rw [h2]

theorem parseValue_ws (fuel : Nat) (c : Char) (t : List Char) (h : isWsCh c = true) :
    parseValue (fuel + 1) (c :: t) = parseValue (fuel + 1) t := by
  simp only [parseValue, skipWs_cons_of_ws c t h]

theorem numSafe_dumpsTail (xs : List Json) (rest : List Char) :
    numSafe (dumpsTail xs ++ ']' :: rest) = true := by
  cases xs <;> rfl

theorem numSafe_dumpsMemsTail (ms : List (List Char × Json)) (rest : List Char) :
    numSafe (dumpsMemsTail ms ++ '\x7d' :: rest) = true := by
  cases ms with
  | nil => rfl
  | cons m mt =>
      obtain ⟨k, v⟩ := m
      rfl

/-! ## Rebuilding a dict from distinct-key pairs is the identity -/

theorem keyMem_append (k : List Char) (a b : List (List Char × Json)) :
    keyMem k (a ++ b) = (keyMem k a || keyMem k b) := by
  induction a with
  | nil => simp [keyMem]
  | cons p t ih =>
      obtain ⟨k2, v2⟩ := p
      simp [keyMem, ih, Bool.or_assoc]

theorem keyMem_false_forall {k : List Char} {ms : List (List Char × Json)}
    (h : keyMem k ms = false) : ∀ p ∈ ms, ¬(p.1 = k) := by
  induction ms with
  | nil => intro p hp; cases hp
  | cons q t ih =>
      obtain ⟨k2, v2⟩ := q
      simp only [keyMem, Bool.or_eq_false_iff, decide_eq_false_iff_not] at h
      intro p hp
      rcases List.mem_cons.mp hp with rfl | hp2
      · simpa using fun he => h.1 he.symm
      · exact ih h.2 p hp2

theorem foldl_dictInsert (ms : List (List Char × Json)) :
    ∀ acc, keysNodup ms = true → (∀ p ∈ ms, keyMem p.1 acc = false) →
      ms.foldl (fun acc p => dictInsert acc p.1 p.2) acc = acc ++ ms := by
  induction ms with
  | nil => intro acc _ _; simp
  | cons q mt ih =>
      obtain ⟨k, v⟩ := q
      intro acc hnd hacc
      simp only [keysNodup, Bool.and_eq_true, Bool.not_eq_eq_eq_not, Bool.not_true] at hnd
      have hmem : keyMem k acc = false := hacc (k, v) (List.mem_cons_self _ _)
      have hins : dictInsert acc k v = acc ++ [(k, v)] := by
        simp [dictInsert, hmem]
      simp only [List.foldl_cons, hins]
      rw [ih (acc ++ [(k, v)]) hnd.2]
      · simp
      · intro p hp
        rw [keyMem_append]
        have h1 : keyMem p.1 acc = false := hacc p (List.mem_cons_of_mem _ hp)
        have h2 : ¬(p.1 = k) := by
          have hkmt : keyMem k mt = false := by
            cases hk : keyMem k mt
            · rfl
            · rw [hk] at hnd
              cases hnd.1
          have := keyMem_false_forall hkmt p hp
          simpa using this
        simp [keyMem, h1, h2]

theorem dictBuild_nodup (ms : List (List Char × Json)) (h : keysNodup ms = true) :
    dictBuild ms = ms := by
  have := foldl_dictInsert ms [] h (fun p _ => rfl)
  simpa [dictBuild] using this

theorem dumpsTail_cons_length (y : Json) (ys : List Json) :
    (dumpsTail (y :: ys)).length = 2 + (dumps y).length + (dumpsTail ys).length := by
  simp only [dumpsTail, List.length_cons, List.length_append]
  omega

theorem dumpsMem_length (k : List Char) (v : Json) :
    (dumpsMem (k, v)).length = 4 + (escString k).length + (dumps v).length := by
  show ('"' :: (escString k ++ ('"' :: ':' :: ' ' :: dumps v))).length = _
  simp only [List.length_cons, List.length_append]
  omega

theorem parseElems_not_close (fuel : Nat) (c : Char) (r : List Char)
    (hws : isWsCh c = false) (hne : ¬(c = ']')) :
    parseElems (fuel + 1) (c :: r) =
      match parseValue fuel (c :: r) with
      | none => none
      | some (v, r1) =>
          match parseElemsTail fuel r1 with
          | none => none
          | some (vs, r2) => some (Json.arr (v :: vs), r2) := by
  simp only [parseElems, skipWs_cons_of_not_ws c r hws, if_neg hne]

theorem parseElemsTail_comma (fuel : Nat) (t : List Char) :
    parseElemsTail (fuel + 1) (',' :: t) =
      match parseValue fuel t with
      | none => none
      | some (v, r2) =>
          match parseElemsTail fuel r2 with
          | none => none
          | some (vs, r3) => some (v :: vs, r3) := rfl

theorem parseMembers_quote (fuel : Nat) (t : List Char) :
    parseMembers (fuel + 1) ('"' :: t) =
      match parseStr t with
      | none => none
      | some (k, r2) =>
          match skipWs r2 with
          | ':' :: r3 =>
              match parseValue fuel r3 with
              | none => none
              | some (v, r4) =>
                  match parseMemsTail fuel r4 with
                  | none => none
                  | some (ms, r5) => some (Json.obj (dictBuild ((k, v) :: ms)), r5)
          | _ => none := rfl

theorem parseMemsTail_comma (fuel : Nat) (t : List Char) :
    parseMemsTail (fuel + 1) (',' :: t) =
      match skipWs t with
      | '"' :: r2 =>
          match parseStr r2 with
          | none => none
          | some (k, r3) =>
              match skipWs r3 with
              | ':' :: r4 =>
                  match parseValue fuel r4 with
                  | none => none
                  | some (v, r5) =>
                      match parseMemsTail fuel r5 with
                      | none => none
                      | some (ms, r6) => some ((k, v) :: ms, r6)
              | _ => none
      | _ => none := rfl

theorem dumpsMemsTail_cons_length (m : List Char × Json) (ms : List (List Char × Json)) :
    (dumpsMemsTail (m :: ms)).length =
      2 + (dumpsMem m).length + (dumpsMemsTail ms).length := by
  simp only [dumpsMemsTail, List.length_cons, List.length_append]
  omega

/-- The scanner inverts the encoder: each of the five mutually recursive
entry points, at every sufficient fuel, on hereditarily distinct-key
values, with any non-number-extending continuation. -/
theorem parse_dumps_all (fuel : Nat) :
    (∀ v rest, wfJ v = true → numSafe rest = true → (dumps v).length < fuel →
      parseValue fuel (dumps v ++ rest) = some (v, rest)) ∧
    (∀ x xs rest, wfJ x = true → wfL xs = true →
      (dumps x).length + (dumpsTail xs).length + 1 < fuel →
      parseElems fuel (dumps x ++ (dumpsTail xs ++ ']' :: rest)) =
        some (.arr (x :: xs), rest)) ∧
    (∀ xs rest, wfL xs = true → (dumpsTail xs).length + 1 < fuel →
      parseElemsTail fuel (dumpsTail xs ++ ']' :: rest) = some (xs, rest)) ∧
    (∀ k v ms rest, wfJ v = true → wfM ms = true → keysNodup ((k, v) :: ms) = true →
      (dumpsMem (k, v)).length + (dumpsMemsTail ms).length + 1 < fuel →
      parseMembers fuel (dumpsMem (k, v) ++ (dumpsMemsTail ms ++ '\x7d' :: rest)) =
        some (.obj ((k, v) :: ms), rest)) ∧
    (∀ ms rest, wfM ms = true → (dumpsMemsTail ms).length + 1 < fuel →
      parseMemsTail fuel (dumpsMemsTail ms ++ '\x7d' :: rest) = some (ms, rest)) := by
  induction fuel with
  | zero =>
      refine ⟨fun v rest _ _ h => absurd h (by omega),
        fun x xs rest _ _ h => absurd h (by omega),
        fun xs rest _ h => absurd h (by omega),
        fun k v ms rest _ _ _ h => absurd h (by omega),
        fun ms rest _ h => absurd h (by omega)⟩
  | succ fuel ih =>
      obtain ⟨A, B, C, D, E⟩ := ih
      refine ⟨?_, ?_, ?_, ?_, ?_⟩
      · -- parseValue
        intro v rest hwf hsafe hlen
        cases v with
        | null => rfl
        | bool b => cases b <;> rfl
        | num n => exact parseValue_num fuel n rest hsafe
        | str s =>
            show parseValue (fuel + 1) (('"' :: (escString s ++ ['"'])) ++ rest) = _
            simp only [List.cons_append, List.append_assoc, List.singleton_append]
            rw [parseValue_quote, parseStr_escString]
            rfl
        | arr xs =>
            cases xs with
            | nil =>
                cases fuel with
                | zero => simp [dumps] at hlen
                | succ g => rfl
            | cons x t =>
                have hw2 : wfJ x = true ∧ wfL t = true := by
                  have : wfJ (.arr (x :: t)) = (wfJ x && wfL t) := rfl
                  rw [this, Bool.and_eq_true] at hwf
                  exact hwf
                have hlen2 : (dumps x).length + (dumpsTail t).length + 1 < fuel := by
                  have : (dumps (.arr (x :: t))).length =
                      2 + (dumps x).length + (dumpsTail t).length := by
                    show ('[' :: (dumps x ++ (dumpsTail t ++ [']']))).length = _
                    simp only [List.length_cons, List.length_append,
                      List.length_singleton, List.length_nil]
                    omega
                  omega
                show parseValue (fuel + 1)
                  (('[' :: (dumps x ++ (dumpsTail t ++ [']']))) ++ rest) = _
                simp only [List.cons_append, List.append_assoc, List.singleton_append]
                rw [parseValue_bracket]
                exact B x t rest hw2.1 hw2.2 hlen2
        | obj ms =>
            cases ms with
            | nil =>
                cases fuel with
                | zero => simp [dumps] at hlen
                | succ g => rfl
            | cons m mt =>
                obtain ⟨k, v⟩ := m
                have hw2 : keysNodup ((k, v) :: mt) = true ∧ wfJ v = true ∧
                    wfM mt = true := by
                  have h1 : wfJ (.obj ((k, v) :: mt)) =
                      (keysNodup ((k, v) :: mt) && wfM ((k, v) :: mt)) := rfl
                  have h2 : wfM ((k, v) :: mt) = (wfJ v && wfM mt) := rfl
                  rw [h1, Bool.and_eq_true, h2, Bool.and_eq_true] at hwf
                  exact ⟨hwf.1, hwf.2.1, hwf.2.2⟩
                have hlen2 : (dumpsMem (k, v)).length + (dumpsMemsTail mt).length + 1
                    < fuel := by
                  have : (dumps (.obj ((k, v) :: mt))).length =
                      2 + (dumpsMem (k, v)).length + (dumpsMemsTail mt).length := by
                    show ('\x7b' :: (dumpsMem (k, v) ++ (dumpsMemsTail mt ++ ['\x7d']))).length = _
                    simp only [List.length_cons, List.length_append,
                      List.length_singleton, List.length_nil]
                    omega
                  omega
                show parseValue (fuel + 1)
                  (('\x7b' :: (dumpsMem (k, v) ++ (dumpsMemsTail mt ++ ['\x7d']))) ++ rest) = _
                simp only [List.cons_append, List.append_assoc, List.singleton_append]
                rw [parseValue_brace]
                exact D k v mt rest hw2.2.1 hw2.2.2 hw2.1 hlen2
      · -- parseElems
        intro x xs rest hwx hwxs hlen
        obtain ⟨c, t, hct, hws, hbr1, _, _⟩ := dumps_cons x
        have hlx := dumps_length_pos x
        rw [hct, List.cons_append, parseElems_not_close fuel c _ hws hbr1,
          ← List.cons_append, ← hct,
          A x _ hwx (numSafe_dumpsTail xs rest) (by omega)]
        simp only [C xs rest hwxs (by omega)]
      · -- parseElemsTail
        intro xs rest hw hlen
        cases xs with
        | nil =>
            show parseElemsTail (fuel + 1) (']' :: rest) = _
            rfl
        | cons y ys =>
            have hw2 : wfJ y = true ∧ wfL ys = true := by
              have : wfL (y :: ys) = (wfJ y && wfL ys) := rfl
              rw [this, Bool.and_eq_true] at hw
              exact hw
            rw [dumpsTail_cons_length] at hlen
            have hly := dumps_length_pos y
            cases fuel with
            | zero => omega
            | succ g =>
                show parseElemsTail (g + 1 + 1)
                  ((',' :: ' ' :: (dumps y ++ dumpsTail ys)) ++ ']' :: rest) = _
                simp only [List.cons_append, List.append_assoc]
                rw [parseElemsTail_comma, parseValue_ws g ' ' _ (by decide),
                  A y _ hw2.1 (numSafe_dumpsTail ys rest) (by omega)]
                simp only [C ys rest hw2.2 (by omega)]
      · -- parseMembers
        intro k v ms rest hwv hwm hnd hlen
        rw [dumpsMem_length] at hlen
        have hlv := dumps_length_pos v
        cases fuel with
        | zero => omega
        | succ g =>
            show parseMembers (g + 1 + 1)
              (('"' :: (escString k ++ ('"' :: ':' :: ' ' :: dumps v)))
                ++ (dumpsMemsTail ms ++ '\x7d' :: rest)) = _
            simp only [List.cons_append, List.append_assoc]
            rw [parseMembers_quote]
            simp only [parseStr_escString, skipWs_cons_of_not_ws ':' _ (by decide)]
            rw [parseValue_ws g ' ' _ (by decide),
              A v _ hwv (numSafe_dumpsMemsTail ms rest) (by omega)]
            simp only [E ms rest hwm (by omega)]
            rw [dictBuild_nodup _ hnd]
      · -- parseMemsTail
        intro ms rest hw hlen
        cases ms with
        | nil =>
            show parseMemsTail (fuel + 1) ('\x7d' :: rest) = _
            rfl
        | cons m mt =>
            obtain ⟨k2, v2⟩ := m
            have hw2 : wfJ v2 = true ∧ wfM mt = true := by
              have : wfM ((k2, v2) :: mt) = (wfJ v2 && wfM mt) := rfl
              rw [this, Bool.and_eq_true] at hw
              exact hw
            rw [dumpsMemsTail_cons_length, dumpsMem_length] at hlen
            have hlv := dumps_length_pos v2
            cases fuel with
            | zero => omega
            | succ g =>
                show parseMemsTail (g + 1 + 1)
                  ((',' :: ' ' :: (dumpsMem (k2, v2) ++ dumpsMemsTail mt))
                    ++ '\x7d' :: rest) = _
                simp only [List.cons_append, List.append_assoc]
                rw [parseMemsTail_comma, skipWs_cons_of_ws ' ' _ (by decide)]
                simp only [dumpsMem, List.cons_append, List.append_assoc,
                  skipWs_cons_of_not_ws '"' _ (by decide)]
                simp only [parseStr_escString, skipWs_cons_of_not_ws ':' _ (by decide)]
                rw [parseValue_ws g ' ' _ (by decide),
                  A v2 _ hw2.1 (numSafe_dumpsMemsTail mt rest) (by omega)]
                simp only [E mt rest hw2.2 (by omega)]

/-- The scanner applied to a serialized value plus a continuation. -/
theorem parseValue_dumps (fuel : Nat) (v : Json) (rest : List Char)
    (hwf : wfJ v = true) (hsafe : numSafe rest = true)
    (hlen : (dumps v).length < fuel) :
    parseValue fuel (dumps v ++ rest) = some (v, rest) :=
  (parse_dumps_all fuel).1 v rest hwf hsafe hlen

/-- `json.loads` inverts `json.dumps` on every value whose object keys are
hereditarily distinct (always true of trees of Python dicts). -/
theorem loads_dumps (v : Json) (h : wfJ v = true) : loads (dumps v) = some v := by
  have h2 := parseValue_dumps ((dumps v).length + 1) v [] h rfl (by omega)
  rw [List.append_nil] at h2
  simp only [loads, h2]
  rfl

/-! ## Frame transport (`main` read loop, `send_response`/`send_error`) -/

def readLine : List Char → List Char × List Char
  | [] => ([], [])
  | c :: cs =>
      if c = '\n' then (['\n'], cs)
      else
        ((readLine cs).1.cons c, (readLine cs).2)

theorem readLine_snd_lt (s : List Char) (h : s ≠ []) :
    (readLine s).2.length < s.length := by
  induction s with
  | nil => cases h rfl
  | cons c cs ih =>
      by_cases hc : c = '\n'
      · simp [readLine, hc]
      · by_cases hcs : cs = []
        · subst hcs
          simp [readLine, hc]
        · have := ih hcs
          simp only [readLine, if_neg hc, List.length_cons]
          omega

theorem readLine_append (l r : List Char) (h : '\n' ∉ l) :
    readLine (l ++ '\n' :: r) = (l ++ ['\n'], r) := by
  induction l with
  | nil => simp [readLine]
  | cons c cs ih =>
      have hc : ¬(c = '\n') := fun hc => h (hc ▸ List.mem_cons_self c cs)
      have hcs : '\n' ∉ cs := fun hm => h (List.mem_cons_of_mem c hm)
      simp [readLine, hc, ih hcs]

/-- The header-accumulation loop: `sys.stdin.readline()` until the block
ends in a blank line; end of input yields `none` (the loop returns). -/
def readHeader (s : List Char) (acc : List Char) : Option (List Char × List Char) :=
  if hs : s = [] then none
  else
    if trailsWith ['\r', '\n', '\r', '\n'] (acc ++ (readLine s).1) ||
        trailsWith ['\n', '\n'] (acc ++ (readLine s).1) then
      some (acc ++ (readLine s).1, (readLine s).2)
    else readHeader (readLine s).2 (acc ++ (readLine s).1)
termination_by s.length
decreasing_by exact readLine_snd_lt s hs

theorem readHeader_lt_aux (n : Nat) : ∀ s acc hdr rest, s.length ≤ n →
    readHeader s acc = some (hdr, rest) → rest.length < s.length := by
  induction n with
  | zero =>
      intro s acc hdr rest hle h
      have hs : s = [] := List.eq_nil_of_length_eq_zero (by omega)
      subst hs
      rw [readHeader] at h
      simp at h
  | succ n ih =>
      intro s acc hdr rest hle h
      by_cases hs : s = []
      · subst hs
        rw [readHeader] at h
        simp at h
      · rw [readHeader, dif_neg hs] at h
        have hlt : (readLine s).2.length < s.length := readLine_snd_lt s hs
        split at h
        · rcases Option.some.inj h with h2
          rw [show rest = (readLine s).2 from congrArg Prod.snd h2.symm]
          exact hlt
        · have := ih (readLine s).2 (acc ++ (readLine s).1) hdr rest (by omega) h
          omega

theorem readHeader_lt {s acc hdr rest}
    (h : readHeader s acc = some (hdr, rest)) : rest.length < s.length :=
  readHeader_lt_aux s.length s acc hdr rest le_rfl h

/-- Per-line detection of the Content-Length field
(`h.lower().startswith("content-length:")`). -/
def isCLLine (line : List Char) : Bool :=
  leadsWith ("content-length:".toList) (asciiLower line)

/-- `int(h.split(":")[1].strip())` on a detected line: failure is the
`ValueError` the outer handler catches. -/
def clValue (line : List Char) : Option Int :=
  pyInt (pyStrip (afterColon line))

/-- The header scan of `main`: every line is examined, the last
Content-Length line wins, an unparsable value raises. -/
def contentLength (hdr : List Char) : Except Unit Int :=
  (pySplit '\n' (pyStrip hdr)).foldl
    (fun acc line =>
      match acc with
      | .error e => .error e
      | .ok v =>
          if isCLLine line then
            match clValue line with
            | some n => .ok n
            | none => .error ()
          else .ok v)
    (.ok 0)

/-- One iteration of the read loop, up to and including `json.loads`. -/
inductive StepRes where
  | halt
  | skip (rest : List Char)
  | msg (m : Json) (rest : List Char)

def serverReadStep (s : List Char) : StepRes :=
  match readHeader s [] with
  | none => .halt
  | some (hdr, rest) =>
      match contentLength hdr with
      | .error _ => .skip rest
      | .ok cl =>
          if cl = 0 then .skip rest
          else
            match loads (rest.take (if cl < 0 then rest.length else cl.toNat)) with
            | none => .skip (rest.drop (if cl < 0 then rest.length else cl.toNat))
            | some m => .msg m (rest.drop (if cl < 0 then rest.length else cl.toNat))

theorem serverReadStep_skip_lt {s rest : List Char}
    (h : serverReadStep s = .skip rest) : rest.length < s.length := by
  unfold serverReadStep at h
  split at h
  · cases h
  · rename_i hdr0 rest0 hh
    have h1 := readHeader_lt hh
    split at h
    · cases h
      omega
    · split at h
      · cases h
        omega
      · split at h
        · cases h
          rw [List.length_drop]
          omega
        · cases h

theorem serverReadStep_msg_lt {s : List Char} {m : Json} {rest : List Char}
    (h : serverReadStep s = .msg m rest) : rest.length < s.length := by
  unfold serverReadStep at h
  split at h
  · cases h
  · rename_i hdr0 rest0 hh
    have h1 := readHeader_lt hh
    split at h
    · cases h
    · split at h
      · cases h
      · split at h
        · cases h
        · cases h
          rw [List.length_drop]
          omega

/-- Framed bytes: `f"Content-Length: {len(out)}\r\n\r\n{out}"`. -/
def frameBytes (body : List Char) : List Char :=
  "Content-Length: ".toList ++ natRepr body.length ++
    ('\r' :: '\n' :: '\r' :: '\n' :: body)

/-- The bytes `send_response`/`send_error` put on stdout for a response
object. -/
def sendBytes (resp : Json) : List Char := frameBytes (dumps resp)

/-! ## The two backing files

A file is missing, unparsable (`json.loads` raises), or holds a parsed
JSON document. -/

inductive FileContent where
  | missing
  | corrupt
  | stored (j : Json)

structure Files where
  shared : FileContent
  pending : FileContent

/-- `read_shared_state`: a missing or unparsable state file becomes the
two-key default. -/
def readSharedState : FileContent → Json
  | .stored j => j
  | _ => .obj [("conversations".toList, .arr []), ("status".toList, .obj [])]

/-! ## Python-attribute helpers over `Json` -/

/-- `d.get(k, dflt)`: `AttributeError` on a non-dict receiver. -/
def jGet (j : Json) (k : List Char) (dflt : Json) : Except Unit Json :=
  match j with
  | .obj ms => .ok ((jlook k ms).getD dflt)
  | _ => .error ()

/-- `d[k]`: `KeyError` when absent, `TypeError`-like failure on a
non-dict receiver. -/
def jIndex (j : Json) (k : List Char) : Except Unit Json :=
  match j with
  | .obj ms =>
      match jlook k ms with
      | some v => .ok v
      | none => .error ()
  | _ => .error ()

/-- Total `get` for receivers known to be dicts. -/
def objGet (m : Json) (k : List Char) (dflt : Json) : Json :=
  match m with
  | .obj ms => (jlook k ms).getD dflt
  | _ => dflt

/-- Values Python arithmetic and slicing accept as integers (`bool` is an
`int` subtype); everything else raises. -/
def asIntLike : Json → Except Unit Int
  | .num n => .ok n
  | .bool true => .ok 1
  | .bool false => .ok 0
  | _ => .error ()

/-- Python `==` between a parsed value and a string literal. -/
def jsonEqStr (j : Json) (s : List Char) : Bool :=
  match j with
  | .str t => t = s
  | _ => false

/-! ## The three tools (`handle_tool_call`) -/

def pad2 (n : Nat) : List Char := if n < 10 then '0' :: natRepr n else natRepr n

/-- `time.strftime("%H:%M:%S", time.localtime(t))`, rendered at offset
zero (the local timezone is environment, not program). -/
def hhmmss (t : Int) : List Char :=
  pad2 ((t % 86400).toNat / 3600) ++ ':' ::
    (pad2 ((t % 86400).toNat % 3600 / 60) ++ ':' :: pad2 ((t % 86400).toNat % 60))

def fallbackConvos : List Char :=
  "No conversations yet. The Oracle bot may not be running.".toList

def fallbackStatus : List Char :=
  "Oracle bot is not running or has not reported status yet.".toList

/-- The two labelled lines plus blank separator one conversation entry
contributes; `c['user']` / `c['oracle']` raise `KeyError` when absent and
a non-numeric timestamp makes `time.localtime` raise. -/
def entryLines (c : Json) : Except Unit (List (List Char)) := do
  let tsv ← jGet c ("timestamp".toList) (.num 0)
  let t ← asIntLike tsv
  let u ← jIndex c ("user".toList)
  let o ← jIndex c ("oracle".toList)
  .ok ['[' :: (hhmmss t ++ ("] User: ".toList ++ pyStr u)),
       '[' :: (hhmmss t ++ ("] Oracle: ".toList ++ pyStr o)),
       []]

def buildLines : List Json → Except Unit (List (List Char))
  | [] => .ok []
  | c :: cs => do
      let ls ← entryLines c
      let rest ← buildLines cs
      .ok (ls ++ rest)

/-- `oracle_get_conversations`. -/
def getConversations (shared : FileContent) (arguments : Json) :
    Except Unit (List Char) := do
  let state := readSharedState shared
  let convos ← jGet state ("conversations".toList) (.arr [])
  let limitJ ← jGet arguments ("limit".toList) (.num 10)
  match convos with
  | .arr l => do
      let lim ← asIntLike limitJ
      let recent := pyTail l (-lim)
      if recent.isEmpty then .ok fallbackConvos
      else do
        let lines ← buildLines recent
        .ok (List.intercalate ['\n'] lines)
  | .str cs => do
      let lim ← asIntLike limitJ
      let recent := pyTail cs (-lim)
      if recent.isEmpty then .ok fallbackConvos
      else .error ()
  | _ => .error ()

/-- `oracle_get_status`. -/
def getStatus (shared : FileContent) (now : Int) : Except Unit (List Char) := do
  let state := readSharedState shared
  let status ← jGet state ("status".toList) (.obj [])
  if pyTruthy status = false then .ok fallbackStatus
  else do
    let lastActive ← jGet status ("last_active".toList) (.num 0)
    let ago ←
      if pyTruthy lastActive then do
        let la ← asIntLike lastActive
        Except.ok (some (now - la))
      else Except.ok (none : Option Int)
    let connected ← jGet status ("connected".toList) (.bool false)
    let agentId ← jGet status ("agent_id".toList) (.str ("N/A".toList))
    let position ← jGet status ("position".toList) (.str ("N/A".toList))
    let autonomous ← jGet status ("autonomous".toList) (.bool false)
    let alive : List Char :=
      match ago with
      | some a =>
          if a < 60 then "yes".toList
          else "last seen ".toList ++ (intRepr a ++ "s ago".toList)
      | none => "last seen infs ago".toList
    .ok ("Connected to The Grid: ".toList ++ (pyStr connected ++ '\n' ::
         ("Agent ID: ".toList ++ (pyStr agentId ++ '\n' ::
         ("Position: ".toList ++ (pyStr position ++ '\n' ::
         ("Autonomous mode: ".toList ++ (pyStr autonomous ++ '\n' ::
         ("Alive: ".toList ++ alive)))))))))

/-- `oracle_send_message`: the queue entry the server appends. -/
def pendingEntry (message : Json) (now : Int) : Json :=
  .obj [("message".toList, message),
        ("from".toList, .str ("claude_code".toList)),
        ("timestamp".toList, .num now)]

/-- `oracle_send_message`: empty/missing text rejected; missing or
unparsable queue treated as empty; a parsed non-list makes `.append`
raise before any write. -/
def sendMessage (pending : FileContent) (arguments : Json) (now : Int) :
    Except Unit (FileContent × List Char) := do
  let message ← jGet arguments ("message".toList) (.str [])
  if pyTruthy message = false then
    .ok (pending, "Error: no message provided.".toList)
  else do
    let plist ←
      match pending with
      | .stored j =>
          match j with
          | .arr l => Except.ok l
          | _ => Except.error ()
      | _ => Except.ok ([] : List Json)
    .ok (.stored (.arr (plist ++ [pendingEntry message now])),
      "Message queued for Oracle: ".toList ++ pyStr message)

/-- `handle_tool_call`. -/
def handleToolCall (files : Files) (now : Int) (name arguments : Json) :
    Files × Except Unit (List Char) :=
  if jsonEqStr name ("oracle_get_conversations".toList) then
    (files, getConversations files.shared arguments)
  else if jsonEqStr name ("oracle_get_status".toList) then
    (files, getStatus files.shared now)
  else if jsonEqStr name ("oracle_send_message".toList) then
    match sendMessage files.pending arguments now with
    | .ok (p2, text) => ({ files with pending := p2 }, .ok text)
    | .error e => (files, .error e)
  else (files, .ok ("Unknown tool: ".toList ++ pyStr name))

/-! ## The method dispatcher (`main`, per parsed message) -/

/-- `msg.get("id")` is `None` both for an absent and for a JSON-null id. -/
def msgIdOf (m : Json) : Option Json :=
  match objGet m ("id".toList) .null with
  | .null => none
  | v => some v

def idValue (msgId : Option Json) : Json := msgId.getD .null

def respOk (msgId : Option Json) (result : Json) : Json :=
  .obj [("jsonrpc".toList, .str ("2.0".toList)), ("id".toList, idValue msgId),
        ("result".toList, result)]

def respErr (idv : Json) (code : Int) (message : List Char) : Json :=
  .obj [("jsonrpc".toList, .str ("2.0".toList)), ("id".toList, idv),
        ("error".toList, .obj [("code".toList, .num code),
          ("message".toList, .str message)])]

def initResult : Json :=
  .obj [("protocolVersion".toList, .str ("2024-11-05".toList)),
        ("capabilities".toList, .obj [("tools".toList, .obj [])]),
        ("serverInfo".toList,
          .obj [("name".toList, .str ("oracle-telegram-bridge".toList)),
                ("version".toList, .str ("1.0.0".toList))])]

/-- The static `TOOLS` descriptor list. -/
def toolsConst : Json :=
  .arr
    [.obj [("name".toList, .str ("oracle_get_conversations".toList)),
        ("description".toList, .str (("Read recent conversations between the user and the Oracle Telegram bot. Use this to see what the user has been asking the Oracle about — useful for understanding bugs, issues, or requests they\x27ve mentioned.").toList)),
        ("inputSchema".toList,
          .obj [("type".toList, .str ("object".toList)),
            ("properties".toList,
              .obj [("limit".toList,
                .obj [("type".toList, .str ("integer".toList)),
                  ("description".toList, .str (("Number of recent conversations to return (default 10)").toList)),
                  ("default".toList, .num 10)])])])],
     .obj [("name".toList, .str ("oracle_get_status".toList)),
        ("description".toList, .str (("Check the Oracle Telegram bot\x27s current status — whether it\x27s running, connected to The Grid, its position, and autonomous mode state.").toList)),
        ("inputSchema".toList,
          .obj [("type".toList, .str ("object".toList)),
            ("properties".toList, .obj [])])],
     .obj [("name".toList, .str ("oracle_send_message".toList)),
        ("description".toList, .str (("Queue a message to be sent through the Oracle Telegram bot to the user. Use this to relay information, answers, or status updates back through Telegram.").toList)),
        ("inputSchema".toList,
          .obj [("type".toList, .str ("object".toList)),
            ("properties".toList,
              .obj [("message".toList,
                .obj [("type".toList, .str ("string".toList)),
                  ("description".toList, .str (("The message to send through the Oracle to Telegram").toList))])]),
            ("required".toList, .arr [.str ("message".toList)])])]]

def toolsListResult : Json := .obj [("tools".toList, toolsConst)]

def contentResult (text : List Char) : Json :=
  .obj [("content".toList,
    .arr [.obj [("type".toList, .str ("text".toList)), ("text".toList, .str text)]])]

/-- One parsed request through `main`'s method branches.  Returns the
(possibly updated) files and the list of response objects written to
stdout for this request; an exception escaping to the outer handler is
logged to stderr and produces no response. -/
def dispatch (files : Files) (now : Int) (m : Json) : Files × List Json :=
  match m with
  | .obj _ =>
      let method := objGet m ("method".toList) (.str [])
      let params := objGet m ("params".toList) (.obj [])
      if jsonEqStr method ("initialize".toList) then
        (files, [respOk (msgIdOf m) initResult])
      else if jsonEqStr method ("notifications/initialized".toList) then
        (files, [])
      else if jsonEqStr method ("tools/list".toList) then
        (files, [respOk (msgIdOf m) toolsListResult])
      else if jsonEqStr method ("tools/call".toList) then
        match jGet params ("name".toList) (.str []) with
        | .error _ => (files, [])
        | .ok toolName =>
            match jGet params ("arguments".toList) (.obj []) with
            | .error _ => (files, [])
            | .ok toolArgs =>
                match handleToolCall files now toolName toolArgs with
                | (f2, .ok text) => (f2, [respOk (msgIdOf m) (contentResult text)])
                | (f2, .error _) => (f2, [])
      else if jsonEqStr method ("ping".toList) then
        (files, [respOk (msgIdOf m) (.obj [])])
      else
        match msgIdOf m with
        | some idv =>
            (files, [respErr idv (-32601) ("Method not found: ".toList ++ pyStr method)])
        | none => (files, [])
  | _ => (files, [])

/-- The full read loop at a frozen clock: responses for every frame until
end of input. -/
def serverRun (files : Files) (now : Int) (s : List Char) : Files × List Json :=
  match h : serverReadStep s with
  | .halt => (files, [])
  | .skip rest => serverRun files now rest
  | .msg m rest =>
      ((serverRun (dispatch files now m).1 now rest).1,
        (dispatch files now m).2 ++ (serverRun (dispatch files now m).1 now rest).2)
termination_by s.length
decreasing_by
  · exact serverReadStep_skip_lt h
  · exact serverReadStep_msg_lt h

/-! ## The collaborator routines sharing the two files
(`oracle_telegram.py`) -/

/-- The conversation entry `_log_conversation` appends. -/
def convEntry (now : Int) (userMsg oracleReply : List Char) : Json :=
  .obj [("timestamp".toList, .num now),
        ("user".toList, .str userMsg),
        ("oracle".toList, .str oracleReply)]

/-- The sliding-window truncation `shared["conversations"][-50:]` after an
append. -/
def logConvList (l : List Json) (e : Json) : List Json := takeLast 50 (l ++ [e])

/-- `_log_conversation`: read-or-default, append, truncate to the last
fifty, replace the status block, rewrite; any exception (unparsable file,
missing or non-list `conversations` key) is caught and nothing is
written. -/
def logConversation (content : FileContent) (userMsg oracleReply : List Char)
    (now : Int) (status : Json) : FileContent :=
  match content with
  | .corrupt => content
  | .missing =>
      .stored (.obj [("conversations".toList,
          .arr (logConvList [] (convEntry now userMsg oracleReply))),
        ("status".toList, status)])
  | .stored j =>
      match j with
      | .obj ms =>
          match jlook ("conversations".toList) ms with
          | some (.arr l) =>
              .stored (.obj (dictInsert
                (dictInsert ms ("conversations".toList)
                  (.arr (logConvList l (convEntry now userMsg oracleReply))))
                ("status".toList) status))
          | _ => content
      | _ => content

/-- The relay messages `check_pending_messages` sends for one drained
list; a non-dict entry raises (`AttributeError`) before the clear. -/
def collectSends : List Json → Except Unit (List (List Char))
  | [] => .ok []
  | e :: es => do
      let msg ← jGet e ("message".toList) (.str [])
      let rest ← collectSends es
      if pyTruthy msg then .ok (pyStr msg :: rest) else .ok rest

/-- `check_pending_messages`: nothing without a chat id or file; an
unparsable file, a falsy document, a non-list document, or a raising
entry leaves the file untouched; otherwise every entry is relayed and
the file is rewritten to `[]`. -/
def checkPendingMessages (chatIdSet : Bool) (content : FileContent) :
    FileContent × List (List Char) :=
  if !chatIdSet then (content, [])
  else
    match content with
    | .missing => (content, [])
    | .corrupt => (content, [])
    | .stored j =>
        if pyTruthy j = false then (content, [])
        else
          match j with
          | .arr l =>
              match collectSends l with
              | .ok sent => (.stored (.arr []), sent)
              | .error _ => (content, [])
          | _ => (content, [])

/-! ## Behaviour of the read loop on well-formed and malformed frames -/

theorem trailsWith_rn_false (line : List Char) (hnl : '\n' ∉ line) :
    trailsWith ['\r', '\n'] line = false := by
  rcases List.eq_nil_or_concat line with h | ⟨l2, d, h⟩
  · subst h
    exact trailsWith_two_nil _ _
  · subst h
    rw [List.concat_eq_append]
    apply trailsWith_two_of_last_ne
    intro hd
    subst hd
    exact hnl (by simp [List.concat_eq_append])

/-- One custom header line followed by the blank line: the accumulation
loop stops exactly after the blank line and hands back the rest. -/
theorem readHeader_block (line tail : List Char) (hnl : '\n' ∉ line) :
    readHeader (line ++ ('\r' :: '\n' :: '\r' :: '\n' :: tail)) [] =
      some (line ++ ['\r', '\n', '\r', '\n'], tail) := by
  have hne : line ++ ('\r' :: '\n' :: '\r' :: '\n' :: tail) ≠ [] := by simp
  have hrl : readLine (line ++ ('\r' :: '\n' :: '\r' :: '\n' :: tail)) =
      (line ++ ['\r', '\n'], '\r' :: '\n' :: tail) := by
    have h2 : '\n' ∉ line ++ ['\r'] := by
      intro hm
      rcases List.mem_append.mp hm with hm | hm
      · exact hnl hm
      · simp at hm
    have h3 := readLine_append (line ++ ['\r']) ('\r' :: '\n' :: tail) h2
    simpa [List.append_assoc] using h3
  have hc1 : trailsWith ['\r', '\n', '\r', '\n'] (line ++ ['\r', '\n']) = false := by
    have h4 := trailsWith_snoc2 '\r' '\n' '\r' '\n' ['\r', '\n'] line
    simp only [show (['\r', '\n'] ++ ['\r', '\n'] : List Char) = ['\r', '\n', '\r', '\n']
      from rfl] at h4
    rw [h4, trailsWith_rn_false line hnl]
    simp
  have hc2 : trailsWith ['\n', '\n'] (line ++ ['\r', '\n']) = false := by
    have h4 := trailsWith_snoc2 '\n' '\n' '\r' '\n' [] line
    simp only [List.nil_append] at h4
    rw [h4]
    simp
  rw [readHeader, dif_neg hne, hrl]
  simp only [List.nil_append, hc1, hc2, Bool.or_self, Bool.false_eq_true, if_false]
  rw [readHeader, dif_neg (by simp : ('\r' :: '\n' :: tail : List Char) ≠ [])]
  have hrl2 : readLine ('\r' :: '\n' :: tail) = (['\r', '\n'], tail) := by
    have h5 := readLine_append ['\r'] tail (by simp)
    simpa using h5
  rw [hrl2]
  have hc3 : trailsWith ['\r', '\n', '\r', '\n']
      ((line ++ ['\r', '\n']) ++ ['\r', '\n']) = true := by
    have h6 := trailsWith_append ['\r', '\n', '\r', '\n'] line
    simpa [List.append_assoc] using h6
  rw [hc3]
  simp [List.append_assoc]

theorem natDigits_natRepr (n : Nat) : natDigits (natRepr n) = some n := by
  obtain ⟨d, t, hdt⟩ := List.exists_cons_of_ne_nil (natRepr_ne_nil n)
  have hd : isDigitCh d = true := natRepr_all_digits n d (hdt ▸ List.mem_cons_self d t)
  have hstep : parseDigitsAux 0 (natRepr n) = (n, []) := by
    have h1 := parseDigitsAux_natRepr n 0 []
    rw [List.append_nil] at h1
    rw [h1]
    simp [parseDigitsAux]
  rw [hdt]
  simp only [natDigits, if_pos hd, ← hdt, hstep]

theorem natRepr_head_not_sign (n : Nat) {d : Char} {t : List Char}
    (hdt : natRepr n = d :: t) : ¬(d = '-') ∧ ¬(d = '+') := by
  have hd : isDigitCh d = true := natRepr_all_digits n d (hdt ▸ List.mem_cons_self d t)
  exact ⟨digit_ne hd (by decide), digit_ne hd (by decide)⟩

theorem pyInt_natRepr (n : Nat) : pyInt (natRepr n) = some (n : Int) := by
  obtain ⟨d, t, hdt⟩ := List.exists_cons_of_ne_nil (natRepr_ne_nil n)
  obtain ⟨hm, hp⟩ := natRepr_head_not_sign n hdt
  rw [hdt]
  simp only [pyInt, if_neg hm, if_neg hp, ← hdt, natDigits_natRepr]
  rfl

theorem newline_not_mem_natRepr (n : Nat) : '\n' ∉ natRepr n := by
  intro hm
  exact absurd (natRepr_all_digits n '\n' hm) (by decide)

theorem lstrip_cl (Y : List Char) :
    lstrip ("Content-Length: ".toList ++ Y) = "Content-Length: ".toList ++ Y := rfl

theorem afterColon_frame (X : List Char) (hX : ∀ c ∈ X, ¬(c = ':')) :
    afterColon ("Content-Length: ".toList ++ X) = ' ' :: X := by
  have h1 : ("Content-Length: ".toList ++ X).dropWhile (fun c => !(c = ':')) =
      ':' :: ' ' :: X := rfl
  simp only [afterColon, h1, List.drop_succ_cons, List.drop_zero, List.takeWhile_cons]
  rw [if_pos (by decide)]
  rw [List.takeWhile_eq_self_iff.mpr]
  intro c hc
  simp [hX c hc]

theorem isCLLine_frame (X : List Char) :
    isCLLine ("Content-Length: ".toList ++ X) = true := by
  simp only [isCLLine, asciiLower, List.map_append]
  have h1 : List.map lowerCh ("Content-Length: ".toList) =
      "content-length: ".toList := by decide
  rw [h1]
  have h2 : ("content-length: ".toList : List Char) =
      "content-length:".toList ++ [' '] := by decide
  rw [h2, List.append_assoc]
  exact leadsWith_append _ _

theorem pyStrip_space_natRepr (n : Nat) : pyStrip (' ' :: natRepr n) = natRepr n := by
  rcases List.eq_nil_or_concat (natRepr n) with h | ⟨q, d, h⟩
  · exact absurd h (natRepr_ne_nil n)
  · have hd : isDigitCh d = true := by
      refine natRepr_all_digits n d ?_
      rw [h, List.concat_eq_append]
      simp
    have hdws : isWsCh d = false := (digit_ne_specials hd).2.2.2.2.2.2.2
    obtain ⟨d0, t0, hdt⟩ := List.exists_cons_of_ne_nil (natRepr_ne_nil n)
    have hd0 : isDigitCh d0 = true :=
      natRepr_all_digits n d0 (hdt ▸ List.mem_cons_self d0 t0)
    have hd0ws : isWsCh d0 = false := (digit_ne_specials hd0).2.2.2.2.2.2.2
    unfold pyStrip
    have hr : rstrip (' ' :: natRepr n) = ' ' :: natRepr n := by
      rw [h, List.concat_eq_append, show (' ' :: (q ++ [d]) : List Char) =
        (' ' :: q) ++ [d] from rfl, rstrip_of_last_not_ws _ _ hdws]
    rw [hr]
    unfold lstrip
    rw [show (' ' :: natRepr n : List Char) = [' '] ++ natRepr n from rfl,
      dropWhile_append_of_all [' '] (natRepr n) (by decide), hdt,
      dropWhile_cons_neg _ _ hd0ws]

theorem pyStrip_frame_line (n : Nat) :
    pyStrip (("Content-Length: ".toList ++ natRepr n) ++ ['\r', '\n', '\r', '\n']) =
      "Content-Length: ".toList ++ natRepr n := by
  unfold pyStrip
  rw [rstrip_append_ws _ _ (by decide)]
  rcases List.eq_nil_or_concat (natRepr n) with h | ⟨q, d, h⟩
  · exact absurd h (natRepr_ne_nil n)
  · have hd : isDigitCh d = true := by
      refine natRepr_all_digits n d ?_
      rw [h, List.concat_eq_append]
      simp
    have hdws : isWsCh d = false := (digit_ne_specials hd).2.2.2.2.2.2.2
    rw [h, List.concat_eq_append, ← List.append_assoc, rstrip_of_last_not_ws _ _ hdws,
      List.append_assoc]
    exact lstrip_cl _

theorem contentLength_frame (n : Nat) :
    contentLength (("Content-Length: ".toList ++ natRepr n) ++ ['\r', '\n', '\r', '\n']) =
      .ok (n : Int) := by
  have hnl : '\n' ∉ "Content-Length: ".toList ++ natRepr n := by
    intro hm
    rcases List.mem_append.mp hm with hm | hm
    · revert hm
      decide
    · exact newline_not_mem_natRepr n hm
  have hcolon : ∀ c ∈ natRepr n, ¬(c = ':') :=
    fun c hc => (digit_ne_specials (natRepr_all_digits n c hc)).2.2.1
  have hcl : clValue ("Content-Length: ".toList ++ natRepr n) = some (n : Int) := by
    unfold clValue
    rw [afterColon_frame (natRepr n) hcolon, pyStrip_space_natRepr, pyInt_natRepr]
  unfold contentLength
  rw [pyStrip_frame_line, pySplit_no_sep _ _ hnl]
  simp only [List.foldl_cons, List.foldl_nil, isCLLine_frame, if_true, hcl]

theorem mem_rstrip {c : Char} {l : List Char} (h : c ∈ rstrip l) : c ∈ l := by
  unfold rstrip at h
  have h2 : c ∈ l.reverse.dropWhile isWsCh := List.mem_reverse.mp h
  exact List.mem_reverse.mp ((List.dropWhile_sublist _).mem h2)

theorem mem_pyStrip {c : Char} {l : List Char} (h : c ∈ pyStrip l) : c ∈ l := by
  unfold pyStrip lstrip at h
  exact mem_rstrip ((List.dropWhile_sublist _).mem h)

/-- A single-line header block with no Content-Length field leaves the
scan at its initial zero. -/
theorem contentLength_noCL (h : List Char) (hnl : '\n' ∉ h)
    (hcl : isCLLine (pyStrip h) = false) :
    contentLength (h ++ ['\r', '\n', '\r', '\n']) = .ok 0 := by
  have hstrip : pyStrip (h ++ ['\r', '\n', '\r', '\n']) = pyStrip h := by
    unfold pyStrip
    rw [rstrip_append_ws _ _ (by decide)]
  have hnl2 : '\n' ∉ pyStrip h := fun hm => hnl (mem_pyStrip hm)
  unfold contentLength
  rw [hstrip, pySplit_no_sep _ _ hnl2]
  simp [hcl]

/-- A well-formed frame whose body is valid JSON is consumed exactly and
delivers the parsed object; the following bytes are untouched. -/
theorem serverReadStep_frame (body rest : List Char) (v : Json)
    (hl : loads body = some v) :
    serverReadStep (frameBytes body ++ rest) = .msg v rest := by
  have hb : body ≠ [] := by
    intro h0
    rw [h0] at hl
    cases hl
  have hshape : frameBytes body ++ rest =
      ("Content-Length: ".toList ++ natRepr body.length) ++
        ('\r' :: '\n' :: '\r' :: '\n' :: (body ++ rest)) := by
    simp [frameBytes, List.append_assoc]
  have hnl : '\n' ∉ "Content-Length: ".toList ++ natRepr body.length := by
    intro hm
    rcases List.mem_append.mp hm with hm | hm
    · revert hm
      decide
    · exact newline_not_mem_natRepr body.length hm
  have hlen0 : ¬((body.length : Int) = 0) := by
    simp only [Int.natCast_eq_zero]
    intro h0
    exact hb (List.eq_nil_of_length_eq_zero h0)
  have hneg : ¬((body.length : Int) < 0) := by omega
  unfold serverReadStep
  rw [hshape, readHeader_block _ _ hnl]
  simp only [contentLength_frame body.length, if_neg hlen0, if_neg hneg,
    Int.toNat_natCast, List.take_left, List.drop_left, hl]

/-- One-step unfoldings of the read loop. -/
theorem serverRun_halt {files : Files} {now : Int} {s : List Char}
    (hstep : serverReadStep s = .halt) : serverRun files now s = (files, []) := by
  rw [serverRun]
  split
  · rfl
  · rename_i r h2
    rw [hstep] at h2
    cases h2
  · rename_i m r h2
    rw [hstep] at h2
    cases h2

theorem serverRun_skip {files : Files} {now : Int} {s rest : List Char}
    (hstep : serverReadStep s = .skip rest) :
    serverRun files now s = serverRun files now rest := by
  rw [serverRun]
  split
  · rename_i h2
    rw [hstep] at h2
    cases h2
  · rename_i r h2
    rw [hstep] at h2
    cases h2
    rfl
  · rename_i m r h2
    rw [hstep] at h2
    cases h2

theorem serverRun_msg {files : Files} {now : Int} {s rest : List Char} {m : Json}
    (hstep : serverReadStep s = .msg m rest) :
    serverRun files now s =
      ((serverRun (dispatch files now m).1 now rest).1,
        (dispatch files now m).2 ++ (serverRun (dispatch files now m).1 now rest).2) := by
  rw [serverRun]
  split
  · rename_i h2
    rw [hstep] at h2
    cases h2
  · rename_i r h2
    rw [hstep] at h2
    cases h2
  · rename_i m2 r h2
    rw [hstep] at h2
    cases h2
    rfl

/-- A header block that omits Content-Length is skipped: no response for
it, and the loop resumes at the following byte. -/
theorem serverReadStep_noCL (h s : List Char) (hnl : '\n' ∉ h)
    (hcl : isCLLine (pyStrip h) = false) :
    serverReadStep ((h ++ ['\r', '\n', '\r', '\n']) ++ s) = .skip s := by
  unfold serverReadStep
  rw [show (h ++ ['\r', '\n', '\r', '\n']) ++ s =
      h ++ ('\r' :: '\n' :: '\r' :: '\n' :: s) by simp,
    readHeader_block h s hnl]
  simp [contentLength_noCL h hnl hcl]

/-! ## The claims -/

/-- C3: a well-formed frame declaring length `N` with an `N`-byte valid
JSON body is returned parsed, and exactly the frame's bytes are consumed:
the following bytes are handed to the next read untouched. -/
theorem c3_frame_exact (body rest : List Char) (v : Json)
    (hl : loads body = some v) :
    serverReadStep (frameBytes body ++ rest) = .msg v rest :=
  serverReadStep_frame body rest v hl

theorem c3_witness :
    loads ("\x7b\"a\": 1\x7d".toList) = some (.obj [("a".toList, .num 1)]) ∧
    serverReadStep (frameBytes ("\x7b\"a\": 1\x7d".toList) ++ "XYZ".toList) =
      .msg (.obj [("a".toList, .num 1)]) ("XYZ".toList) :=
  ⟨rfl, c3_frame_exact _ _ _ rfl⟩

/-- C7: feeding the exact bytes `send` emits for a message back into the
receive path reconstructs the message (send/receive round trip), for
every message whose object keys are hereditarily distinct — true of every
tree of Python dicts. -/
theorem c7_roundtrip (v : Json) (rest : List Char) (hwf : wfJ v = true) :
    loads (dumps v) = some v ∧
      serverReadStep (sendBytes v ++ rest) = .msg v rest := by
  have h1 := loads_dumps v hwf
  exact ⟨h1, serverReadStep_frame (dumps v) rest v h1⟩

theorem c7_witness :
    wfJ (.obj [("jsonrpc".toList, .str ("2.0".toList)), ("id".toList, .num 7),
        ("result".toList, .arr [.null, .bool true, .num (-3),
          .str ("ok \x27x\x27".toList)])]) = true ∧
    loads (dumps (.obj [("jsonrpc".toList, .str ("2.0".toList)), ("id".toList, .num 7),
        ("result".toList, .arr [.null, .bool true, .num (-3),
          .str ("ok \x27x\x27".toList)])])) =
      some (.obj [("jsonrpc".toList, .str ("2.0".toList)), ("id".toList, .num 7),
        ("result".toList, .arr [.null, .bool true, .num (-3),
          .str ("ok \x27x\x27".toList)])]) ∧
    serverReadStep (sendBytes (.obj [("jsonrpc".toList, .str ("2.0".toList)),
        ("id".toList, .num 7), ("result".toList, .arr [.null, .bool true, .num (-3),
          .str ("ok \x27x\x27".toList)])]) ++ []) =
      .msg (.obj [("jsonrpc".toList, .str ("2.0".toList)), ("id".toList, .num 7),
        ("result".toList, .arr [.null, .bool true, .num (-3),
          .str ("ok \x27x\x27".toList)])]) [] := by
  have h := c7_roundtrip (.obj [("jsonrpc".toList, .str ("2.0".toList)),
    ("id".toList, .num 7), ("result".toList, .arr [.null, .bool true, .num (-3),
      .str ("ok \x27x\x27".toList)])]) [] (by rfl)
  exact ⟨rfl, h.1, h.2⟩

/-- C8: a frame whose header block omits Content-Length is skipped with no
response and without halting the loop, and the stream is then processed
exactly as if the offending block had not been there — in particular the
following well-formed frame is parsed and handled correctly. -/
theorem c8_skip_bad_header (files : Files) (now : Int) (h s : List Char)
    (hnl : '\n' ∉ h) (hcl : isCLLine (pyStrip h) = false) :
    serverReadStep ((h ++ ['\r', '\n', '\r', '\n']) ++ s) = .skip s ∧
      serverRun files now ((h ++ ['\r', '\n', '\r', '\n']) ++ s) =
        serverRun files now s := by
  have hstep := serverReadStep_noCL h s hnl hcl
  exact ⟨hstep, serverRun_skip hstep⟩

theorem c8_witness :
    ('\n' ∉ ("X-Custom: yes".toList : List Char)) ∧
    isCLLine (pyStrip ("X-Custom: yes".toList)) = false ∧
    serverReadStep (("X-Custom: yes".toList ++ ['\r', '\n', '\r', '\n']) ++
        frameBytes ("null".toList)) = .skip (frameBytes ("null".toList)) ∧
    serverRun ⟨.missing, .missing⟩ 0 (("X-Custom: yes".toList ++
        ['\r', '\n', '\r', '\n']) ++ frameBytes ("null".toList)) =
      serverRun ⟨.missing, .missing⟩ 0 (frameBytes ("null".toList)) := by
  have h := c8_skip_bad_header ⟨.missing, .missing⟩ 0 ("X-Custom: yes".toList)
    (frameBytes ("null".toList)) (by decide) (by rfl)
  exact ⟨by decide, rfl, h.1, h.2⟩

/-- C4: a request naming an unknown method gets exactly one JSON-RPC error
object echoing its id, with code -32601 and message
"Method not found: <method>", when it carries a non-null id; with no id
(or a null one) nothing is sent at all. -/
theorem c4_unknown_method (files : Files) (now : Int) (ms : List (List Char × Json))
    (h1 : jsonEqStr (objGet (.obj ms) ("method".toList) (.str []))
      ("initialize".toList) = false)
    (h2 : jsonEqStr (objGet (.obj ms) ("method".toList) (.str []))
      ("notifications/initialized".toList) = false)
    (h3 : jsonEqStr (objGet (.obj ms) ("method".toList) (.str []))
      ("tools/list".toList) = false)
    (h4 : jsonEqStr (objGet (.obj ms) ("method".toList) (.str []))
      ("tools/call".toList) = false)
    (h5 : jsonEqStr (objGet (.obj ms) ("method".toList) (.str []))
      ("ping".toList) = false) :
    (∀ idv, msgIdOf (.obj ms) = some idv →
      dispatch files now (.obj ms) =
        (files, [respErr idv (-32601) ("Method not found: ".toList ++
          pyStr (objGet (.obj ms) ("method".toList) (.str [])))])) ∧
    (msgIdOf (.obj ms) = none → dispatch files now (.obj ms) = (files, [])) := by
  constructor
  · intro idv hid
    simp only [dispatch]
    rw [h1, h2, h3, h4, h5, hid]
    rfl
  · intro hid
    simp only [dispatch]
    rw [h1, h2, h3, h4, h5, hid]
    rfl

theorem c4_witness :
    jsonEqStr (objGet (.obj [("id".toList, Json.num 7),
        ("method".toList, Json.str ("foo/bar".toList))])
      ("method".toList) (.str [])) ("initialize".toList) = false ∧
    msgIdOf (.obj [("id".toList, Json.num 7),
        ("method".toList, Json.str ("foo/bar".toList))]) = some (.num 7) ∧
    dispatch ⟨.missing, .missing⟩ 0 (.obj [("id".toList, Json.num 7),
        ("method".toList, Json.str ("foo/bar".toList))]) =
      (⟨.missing, .missing⟩,
       [respErr (.num 7) (-32601) ("Method not found: foo/bar".toList)]) := by
  have h := (c4_unknown_method ⟨.missing, .missing⟩ 0
    [("id".toList, Json.num 7), ("method".toList, Json.str ("foo/bar".toList))]
    rfl rfl rfl rfl rfl).1 (.num 7) rfl
  refine ⟨rfl, rfl, ?_⟩
  rw [h]
  rfl

/-- C1 counterexample: a tools/call request carrying id 1 whose tool
handler raises (a stored conversation entry lacks the "user" key, so
`c["user"]` raises KeyError) produces NO response at all — the exception
escapes to the outer per-frame handler, which only logs; the claimed
"exactly one response of content shape" is violated. -/
theorem c1_counterexample :
    msgIdOf (.obj [("method".toList, .str ("tools/call".toList)),
      ("id".toList, .num 1),
      ("params".toList, .obj [("name".toList, .str ("oracle_get_conversations".toList)),
        ("arguments".toList, .obj [])])]) = some (.num 1) ∧
    (dispatch ⟨.stored (.obj [("conversations".toList,
        .arr [.obj [("timestamp".toList, .num 0)]]),
        ("status".toList, .obj [])]), .missing⟩ 5
      (.obj [("method".toList, .str ("tools/call".toList)),
        ("id".toList, .num 1),
        ("params".toList, .obj [("name".toList, .str ("oracle_get_conversations".toList)),
          ("arguments".toList, .obj [])])])).2 = [] :=
  ⟨rfl, rfl⟩

/-- C1 as amended: a tools/call request carrying an id gets exactly one
response of content:[type text] shape when the invoked tool handler
returns normally; when the handler raises, the exception escapes to the
outer per-frame handler, which logs to stderr and sends NO response —
the response is dropped, never converted into a textual result. -/
theorem c1_tools_call (files : Files) (now : Int) (ms : List (List Char × Json))
    (idv toolName toolArgs : Json)
    (h1 : jsonEqStr (objGet (.obj ms) ("method".toList) (.str []))
      ("initialize".toList) = false)
    (h2 : jsonEqStr (objGet (.obj ms) ("method".toList) (.str []))
      ("notifications/initialized".toList) = false)
    (h3 : jsonEqStr (objGet (.obj ms) ("method".toList) (.str []))
      ("tools/list".toList) = false)
    (h4 : jsonEqStr (objGet (.obj ms) ("method".toList) (.str []))
      ("tools/call".toList) = true)
    (hname : jGet (objGet (.obj ms) ("params".toList) (.obj []))
      ("name".toList) (.str []) = .ok toolName)
    (hargs : jGet (objGet (.obj ms) ("params".toList) (.obj []))
      ("arguments".toList) (.obj []) = .ok toolArgs)
    (hid : msgIdOf (.obj ms) = some idv) :
    (∀ f2 text, handleToolCall files now toolName toolArgs = (f2, .ok text) →
      dispatch files now (.obj ms) = (f2, [respOk (some idv) (contentResult text)])) ∧
    (∀ f2 e, handleToolCall files now toolName toolArgs = (f2, .error e) →
      dispatch files now (.obj ms) = (f2, [])) := by
  have key : dispatch files now (.obj ms) =
      (match handleToolCall files now toolName toolArgs with
       | (g, .ok t) => (g, [respOk (some idv) (contentResult t)])
       | (g, .error _) => (g, [])) := by
    simp only [dispatch]
    rw [h1, h2, h3, h4, hname, hargs, hid]
    rfl
  constructor
  · intro f2 text hh
    rw [key, hh]
  · intro f2 e hh
    rw [key, hh]

theorem c1_witness :
    handleToolCall ⟨.missing, .missing⟩ 5
      (.str ("oracle_get_conversations".toList)) (.obj []) =
      (⟨.missing, .missing⟩, .ok fallbackConvos) ∧
    msgIdOf (.obj [("method".toList, .str ("tools/call".toList)),
      ("id".toList, .num 1),
      ("params".toList, .obj [("name".toList, .str ("oracle_get_conversations".toList)),
        ("arguments".toList, .obj [])])]) = some (.num 1) ∧
    dispatch ⟨.missing, .missing⟩ 5 (.obj [("method".toList, .str ("tools/call".toList)),
      ("id".toList, .num 1),
      ("params".toList, .obj [("name".toList, .str ("oracle_get_conversations".toList)),
        ("arguments".toList, .obj [])])]) =
      (⟨.missing, .missing⟩, [respOk (some (.num 1)) (contentResult fallbackConvos)]) := by
  have h := (c1_tools_call ⟨.missing, .missing⟩ 5
    [("method".toList, .str ("tools/call".toList)),
     ("id".toList, .num 1),
     ("params".toList, .obj [("name".toList, .str ("oracle_get_conversations".toList)),
       ("arguments".toList, .obj [])])]
    (.num 1) (.str ("oracle_get_conversations".toList)) (.obj [])
    rfl rfl rfl rfl rfl rfl rfl).1 ⟨.missing, .missing⟩ fallbackConvos rfl
  exact ⟨rfl, rfl, h⟩

/-- How `oracle_send_message` behaves once the `message` argument has
been extracted: empty text is rejected leaving the file alone, a stored
list is extended by one `pendingEntry`, a missing or corrupt file is
treated as the empty list, and a stored non-list raises. -/
theorem sendMessage_eq (p : FileContent) (arguments message : Json) (now : Int)
    (hm : jGet arguments ("message".toList) (.str []) = .ok message) :
    sendMessage p arguments now =
      if pyTruthy message = false then
        .ok (p, "Error: no message provided.".toList)
      else
        match p with
        | .stored (.arr l) =>
            .ok (.stored (.arr (l ++ [pendingEntry message now])),
              "Message queued for Oracle: ".toList ++ pyStr message)
        | .stored _ => .error ()
        | _ =>
            .ok (.stored (.arr [pendingEntry message now]),
              "Message queued for Oracle: ".toList ++ pyStr message) := by
  cases p with
  | missing =>
      simp only [sendMessage]
      rw [hm]
      rfl
  | corrupt =>
      simp only [sendMessage]
      rw [hm]
      rfl
  | stored j =>
      cases j <;> (simp only [sendMessage]; rw [hm]; rfl)

/-- C2 counterexample: the entry `send_message` appends carries
`from: "claude_code"`, not `from: "bridge"` as the spec states. -/
theorem c2_counterexample :
    sendMessage .missing (.obj [("message".toList, .str ("hello".toList))]) 7 =
      .ok (.stored (.arr [pendingEntry (.str ("hello".toList)) 7]),
        "Message queued for Oracle: hello".toList) ∧
    jsonEqStr (objGet (pendingEntry (.str ("hello".toList)) 7) ("from".toList) (.str []))
      ("bridge".toList) = false ∧
    jsonEqStr (objGet (pendingEntry (.str ("hello".toList)) 7) ("from".toList) (.str []))
      ("claude_code".toList) = true :=
  ⟨rfl, rfl, rfl⟩

/-- C2 as amended: for a truthy message, `send_message` appends exactly
one entry \x7bmessage, from:"claude_code", timestamp:now\x7d to the
stored queue (a missing or corrupt file counting as empty) and echoes
the queued text; an empty or missing message is rejected with an error
text and the file is unchanged; the collaborator drain rewrites the
file to []. -/
theorem c2_send_message (arguments message : Json) (now : Int) (l : List Json)
    (hm : jGet arguments ("message".toList) (.str []) = .ok message)
    (ht : pyTruthy message = true) :
    (sendMessage (.stored (.arr l)) arguments now =
      .ok (.stored (.arr (l ++ [pendingEntry message now])),
        "Message queued for Oracle: ".toList ++ pyStr message)) ∧
    (sendMessage .missing arguments now =
      .ok (.stored (.arr ([] ++ [pendingEntry message now])),
        "Message queued for Oracle: ".toList ++ pyStr message)) ∧
    (sendMessage .corrupt arguments now =
      .ok (.stored (.arr ([] ++ [pendingEntry message now])),
        "Message queued for Oracle: ".toList ++ pyStr message)) ∧
    (objGet (pendingEntry message now) ("from".toList) (.str []) =
      .str ("claude_code".toList)) ∧
    (∀ (p : FileContent) (args2 m2 : Json),
      jGet args2 ("message".toList) (.str []) = .ok m2 → pyTruthy m2 = false →
      sendMessage p args2 now = .ok (p, "Error: no message provided.".toList)) ∧
    (∀ sent, collectSends (l ++ [pendingEntry message now]) = .ok sent →
      checkPendingMessages true (.stored (.arr (l ++ [pendingEntry message now]))) =
        (.stored (.arr []), sent)) := by
  refine ⟨?_, ?_, ?_, rfl, ?_, ?_⟩
  · rw [sendMessage_eq _ _ _ _ hm, ht]
    rfl
  · rw [sendMessage_eq _ _ _ _ hm, ht]
    rfl
  · rw [sendMessage_eq _ _ _ _ hm, ht]
    rfl
  · intro p args2 m2 hm2 hf
    rw [sendMessage_eq _ _ _ _ hm2, hf]
    rfl
  · intro sent hcs
    have key : checkPendingMessages true
        (.stored (.arr (l ++ [pendingEntry message now]))) =
        (match collectSends (l ++ [pendingEntry message now]) with
         | .ok s => (FileContent.stored (.arr []), s)
         | .error _ =>
             (FileContent.stored (.arr (l ++ [pendingEntry message now])), [])) := by
      cases l <;> rfl
    rw [key, hcs]

theorem c2_witness :
    jGet (.obj [("message".toList, .str ("hi".toList))]) ("message".toList) (.str []) =
      .ok (.str ("hi".toList)) ∧
    pyTruthy (.str ("hi".toList)) = true ∧
    sendMessage (.stored (.arr [])) (.obj [("message".toList, .str ("hi".toList))]) 3 =
      .ok (.stored (.arr ([] ++ [pendingEntry (.str ("hi".toList)) 3])),
        "Message queued for Oracle: ".toList ++ pyStr (.str ("hi".toList))) ∧
    checkPendingMessages true
        (.stored (.arr ([] ++ [pendingEntry (.str ("hi".toList)) 3]))) =
      (.stored (.arr []), [pyStr (.str ("hi".toList))]) := by
  have h := c2_send_message (.obj [("message".toList, .str ("hi".toList))])
    (.str ("hi".toList)) 3 [] rfl rfl
  exact ⟨rfl, rfl, h.1, h.2.2.2.2.2 [pyStr (.str ("hi".toList))] rfl⟩

/-- C6: with a missing or unparsable backing file none of the three tool
handlers raises; each substitutes the empty default, so
`get_conversations(limit=5)` returns the fixed "no conversations yet"
string, `get_status` returns the fixed "not running" message, and
`send_message` queues onto an empty list and confirms. -/
theorem c6_missing_or_corrupt (now : Int) (arguments message : Json)
    (f : FileContent) (hf : f = .missing ∨ f = .corrupt)
    (hm : jGet arguments ("message".toList) (.str []) = .ok message)
    (ht : pyTruthy message = true) :
    getConversations f (.obj [("limit".toList, .num 5)]) = .ok fallbackConvos ∧
    getStatus f now = .ok fallbackStatus ∧
    sendMessage f arguments now =
      .ok (.stored (.arr [pendingEntry message now]),
        "Message queued for Oracle: ".toList ++ pyStr message) := by
  rcases hf with hf | hf <;> subst hf <;>
    refine ⟨rfl, rfl, ?_⟩ <;> (rw [sendMessage_eq _ _ _ _ hm, ht]; rfl)

theorem c6_witness :
    (FileContent.missing = FileContent.missing ∨
      FileContent.missing = FileContent.corrupt) ∧
    jGet (.obj [("message".toList, .str ("yo".toList))]) ("message".toList) (.str []) =
      .ok (.str ("yo".toList)) ∧
    pyTruthy (.str ("yo".toList)) = true ∧
    (getConversations .missing (.obj [("limit".toList, .num 5)]) = .ok fallbackConvos ∧
     getStatus .missing 0 = .ok fallbackStatus ∧
     sendMessage .missing (.obj [("message".toList, .str ("yo".toList))]) 0 =
       .ok (.stored (.arr [pendingEntry (.str ("yo".toList)) 0]),
         "Message queued for Oracle: ".toList ++ pyStr (.str ("yo".toList)))) := by
  have h := c6_missing_or_corrupt 0 (.obj [("message".toList, .str ("yo".toList))])
    (.str ("yo".toList)) .missing (Or.inl rfl) rfl rfl
  exact ⟨Or.inl rfl, rfl, rfl, h⟩

/-! ## Monadic and dictionary helper lemmas -/

theorem exbind_ok {α β : Type} (a : α) (f : α → Except Unit β) :
    ((Except.ok a : Except Unit α) >>= f) = f a := rfl

theorem exbind_eq_ok {α β : Type} {x : Except Unit α} {f : α → Except Unit β}
    {b : β} (h : (x >>= f) = .ok b) : ∃ a, x = .ok a ∧ f a = .ok b := by
  cases x with
  | error e => exact Except.noConfusion h
  | ok a => exact ⟨a, rfl, h⟩

theorem jGet_obj (ms : List (List Char × Json)) (k : List Char) (d : Json) :
    jGet (.obj ms) k d = .ok ((jlook k ms).getD d) := rfl

theorem dictInsert_cons_ne (k k2 : List Char) (hk : k ≠ k2) (v v2 : Json)
    (mt : List (List Char × Json)) :
    dictInsert ((k2, v2) :: mt) k v = (k2, v2) :: dictInsert mt k v := by
  by_cases hm : keyMem k mt = true <;>
    simp [dictInsert, keyMem, hk, hm, Ne.symm hk]

theorem jlook_dictInsert_self (ms : List (List Char × Json)) (k : List Char)
    (v : Json) : jlook k (dictInsert ms k v) = some v := by
  induction ms with
  | nil => simp [dictInsert, keyMem, jlook]
  | cons p mt ih =>
      obtain ⟨k2, v2⟩ := p
      by_cases hk : k = k2
      · subst hk
        simp [dictInsert, keyMem, jlook]
      · rw [dictInsert_cons_ne k k2 hk v v2 mt]
        simp [jlook, hk, ih]

theorem jlook_map_replace (k k2 : List Char) (v : Json) (hk : k ≠ k2)
    (ms : List (List Char × Json)) :
    jlook k (ms.map (fun p => if p.1 = k2 then (k2, v) else p)) = jlook k ms := by
  induction ms with
  | nil => rfl
  | cons p mt ih =>
      obtain ⟨k3, v3⟩ := p
      show jlook k ((if k3 = k2 then (k2, v) else (k3, v3)) ::
          mt.map (fun p => if p.1 = k2 then (k2, v) else p)) =
        jlook k ((k3, v3) :: mt)
      by_cases h3 : k3 = k2
      · subst h3
        rw [if_pos rfl]
        simp only [jlook]
        rw [if_neg hk, if_neg hk]
        exact ih
      · rw [if_neg h3]
        simp only [jlook]
        by_cases hk3 : k = k3
        · rw [if_pos hk3, if_pos hk3]
        · rw [if_neg hk3, if_neg hk3]
          exact ih

theorem jlook_append_single_ne (k k2 : List Char) (v : Json) (hk : k ≠ k2)
    (ms : List (List Char × Json)) :
    jlook k (ms ++ [(k2, v)]) = jlook k ms := by
  induction ms with
  | nil => simp [jlook, hk]
  | cons p mt ih =>
      obtain ⟨k3, v3⟩ := p
      simp [jlook, ih]

theorem jlook_dictInsert_ne (k k2 : List Char) (hk : k ≠ k2) (v : Json)
    (ms : List (List Char × Json)) :
    jlook k (dictInsert ms k2 v) = jlook k ms := by
  by_cases hm : keyMem k2 ms = true
  · simp [dictInsert, hm, jlook_map_replace k k2 v hk]
  · simp [dictInsert, hm, jlook_append_single_ne k k2 v hk]

/-! ## The fifty-entry sliding window -/

theorem takeLast_append_takeLast (n : Nat) (x y : List α) :
    takeLast n (takeLast n x ++ y) = takeLast n (x ++ y) := by
  rcases le_or_lt x.length n with h | h
  · rw [takeLast_all_of_le n x h]
  · simp only [takeLast, List.drop_append_eq_append_drop, List.length_append,
      List.length_drop, List.drop_drop]
    congr 1 <;> congr 1 <;> omega

theorem foldl_logConvList (es : List Json) :
    ∀ l0 : List Json, l0.length ≤ 50 →
      es.foldl logConvList l0 = takeLast 50 (l0 ++ es) := by
  induction es with
  | nil =>
      intro l0 h
      simp [takeLast_all_of_le 50 l0 h]
  | cons e et ih =>
      intro l0 h
      rw [List.foldl_cons,
        ih (logConvList l0 e) (by
          simpa [logConvList] using takeLast_length_le 50 (l0 ++ [e]))]
      have heq : logConvList l0 e ++ et = takeLast 50 (l0 ++ [e]) ++ et := rfl
      rw [heq, takeLast_append_takeLast]
      simp [List.append_assoc]

/-- C5: every update the conversation logger performs leaves the stored
conversations list at length ≤ 50; a fold of sixty appends starting from
the empty list keeps exactly the last fifty entries in arrival order. -/
theorem c5_conversation_window :
    (∀ (l : List Json) (e : Json), (logConvList l e).length ≤ 50) ∧
    (∀ (content : FileContent) (u o : List Char) (now : Int) (status : Json)
       (ms2 : List (List Char × Json)) (l2 : List Json),
       logConversation content u o now status = .stored (.obj ms2) →
       logConversation content u o now status ≠ content →
       jlook ("conversations".toList) ms2 = some (.arr l2) →
       l2.length ≤ 50) ∧
    (∀ es : List Json, es.foldl logConvList [] = takeLast 50 es) ∧
    (∀ es : List Json, es.length = 60 →
       es.foldl logConvList [] = es.drop 10 ∧
       (es.foldl logConvList []).length = 50) := by
  have hlen : ∀ (l : List Json) (e : Json), (logConvList l e).length ≤ 50 :=
    fun l e => by simpa [logConvList] using takeLast_length_le 50 (l ++ [e])
  have hfold : ∀ es : List Json, es.foldl logConvList [] = takeLast 50 es := by
    intro es
    have h := foldl_logConvList es [] (by simp)
    simpa using h
  refine ⟨hlen, ?_, hfold, ?_⟩
  · intro content u o now status ms2 l2 heq hne hl2
    cases content with
    | corrupt => exact absurd rfl hne
    | missing =>
        simp only [logConversation] at heq
        injection heq with h1
        injection h1 with h2
        subst h2
        simp only [jlook, if_pos] at hl2
        rcases hl2 with hl2
        injection hl2 with hl3
        injection hl3 with hl4
        rw [← hl4]
        exact hlen _ _
    | stored j =>
        cases j with
        | obj ms =>
            rcases hjl : jlook ("conversations".toList) ms with _ | cv
            · simp only [logConversation, hjl] at heq hne
              exact absurd rfl hne
            · cases cv with
              | arr l =>
                  simp only [logConversation, hjl] at heq
                  injection heq with h1
                  injection h1 with h2
                  subst h2
                  rw [jlook_dictInsert_ne _ _ (by decide) _ _,
                    jlook_dictInsert_self] at hl2
                  injection hl2 with hl3
                  injection hl3 with hl4
                  rw [← hl4]
                  exact hlen _ _
              | null =>
                  simp only [logConversation, hjl] at heq hne
                  exact absurd rfl hne
              | bool b =>
                  simp only [logConversation, hjl] at heq hne
                  exact absurd rfl hne
              | num n =>
                  simp only [logConversation, hjl] at heq hne
                  exact absurd rfl hne
              | str s =>
                  simp only [logConversation, hjl] at heq hne
                  exact absurd rfl hne
              | obj ms3 =>
                  simp only [logConversation, hjl] at heq hne
                  exact absurd rfl hne
        | null => exact absurd rfl hne
        | bool b => exact absurd rfl hne
        | num n => exact absurd rfl hne
        | str s => exact absurd rfl hne
        | arr l => exact absurd rfl hne
  · intro es h60
    have h := hfold es
    constructor
    · rw [h]
      simp [takeLast, h60]
    · rw [h]
      simp [takeLast, h60]

theorem c5_witness :
    ((logConvList (List.replicate 55 Json.null) (Json.num 1)).length ≤ 50) ∧
    ((List.replicate 60 (Json.num 2)).length = 60) ∧
    ((List.replicate 60 (Json.num 2)).foldl logConvList [] =
      (List.replicate 60 (Json.num 2)).drop 10) := by
  have h := c5_conversation_window
  exact ⟨h.1 (List.replicate 55 Json.null) (Json.num 1), by simp,
    (h.2.2.2 (List.replicate 60 (Json.num 2)) (by simp)).1⟩

/-- C9 counterexample: the status report embeds the distance from the
current clock to `last_active` once it reaches a minute, so two calls on
the same unchanged state file, sixty and sixty-one seconds after the bot
was last active, return different texts — `get_status` is not
idempotent. -/
theorem c9_counterexample :
    getStatus (.stored (.obj [("status".toList,
        .obj [("last_active".toList, .num 40)])])) 100 ≠
      getStatus (.stored (.obj [("status".toList,
        .obj [("last_active".toList, .num 40)])])) 101 := by
  intro h
  exact absurd (congrArg Except.toOption h) (by decide)

/-- C9 as amended: the status text depends on the clock only through the
elapsed time since `last_active`; while both calls fall inside the
sixty-second alive window the reported text is identical, so the claimed
idempotence holds exactly on that window (and fails outside it). -/
theorem c9_alive_window (sh : FileContent) (now1 now2 la : Int)
    (ms : List (List Char × Json))
    (hs : jGet (readSharedState sh) ("status".toList) (.obj []) = .ok (.obj ms))
    (hla : jlook ("last_active".toList) ms = some (.num la))
    (hnz : la ≠ 0)
    (h1 : now1 - la < 60) (h2 : now2 - la < 60) :
    getStatus sh now1 = getStatus sh now2 := by
  have hts : pyTruthy (.obj ms) = true := by
    cases ms with
    | nil => simp [jlook] at hla
    | cons p t => rfl
  have hpt : pyTruthy (.num la) = true := by
    simp [pyTruthy, hnz]
  simp only [getStatus, hs, exbind_ok, jGet_obj, hts, hla, Option.getD_some,
    hpt, asIntLike, h1, h2, Bool.true_eq_false, if_false, if_true,
    eq_self_iff_true, reduceIte, if_pos]

theorem c9_witness :
    (jGet (readSharedState (.stored (.obj [("status".toList,
        .obj [("last_active".toList, .num 40)])]))) ("status".toList) (.obj []) =
      .ok (.obj [("last_active".toList, .num 40)])) ∧
    jlook ("last_active".toList) [("last_active".toList, Json.num 40)] =
      some (.num 40) ∧
    ((40 : Int) ≠ 0) ∧ ((50 : Int) - 40 < 60) ∧ ((70 : Int) - 40 < 60) ∧
    getStatus (.stored (.obj [("status".toList,
        .obj [("last_active".toList, .num 40)])])) 50 =
      getStatus (.stored (.obj [("status".toList,
        .obj [("last_active".toList, .num 40)])])) 70 := by
  refine ⟨rfl, rfl, by decide, by decide, by decide, ?_⟩
  exact c9_alive_window _ 50 70 40 [("last_active".toList, .num 40)]
    rfl rfl (by decide) (by decide) (by decide)

/-! ## Shape of the formatted conversation text -/

theorem entryLines_shape (c : Json) (ls : List (List Char))
    (h : entryLines c = .ok ls) :
    ∃ a b, ls = ['[' :: a, '[' :: b, ([] : List Char)] := by
  simp only [entryLines] at h
  obtain ⟨tsv, h1, h⟩ := exbind_eq_ok h
  obtain ⟨t, h2, h⟩ := exbind_eq_ok h
  obtain ⟨u, h3, h⟩ := exbind_eq_ok h
  obtain ⟨o, h4, h⟩ := exbind_eq_ok h
  injection h with h5
  exact ⟨_, _, h5.symm⟩

theorem buildLines_cons_shape (c : Json) (cs : List Json)
    (lines : List (List Char)) (h : buildLines (c :: cs) = .ok lines) :
    ∃ a rest, lines = ('[' :: a) :: rest := by
  simp only [buildLines] at h
  obtain ⟨ls, h1, h⟩ := exbind_eq_ok h
  obtain ⟨rest0, h2, h⟩ := exbind_eq_ok h
  obtain ⟨a, b, hsh⟩ := entryLines_shape c ls h1
  subst hsh
  injection h with h3
  refine ⟨a, ['[' :: b, ([] : List Char)] ++ rest0, ?_⟩
  rw [← h3]
  rfl

theorem intercalate_cons_head (x : Char) (a : List Char)
    (rest : List (List Char)) :
    ∃ t, List.intercalate ['\n'] ((x :: a) :: rest) = x :: t := by
  cases rest with
  | nil => exact ⟨a, by simp [List.intercalate]⟩
  | cons r rs =>
      exact ⟨a ++ '\n' :: List.intercalate ['\n'] (r :: rs), by
        simp [List.intercalate, List.intersperse]⟩

/-- C10: calling `get_conversations` with limit 0 on a non-empty stored
list slices the whole list (`convos[-0:]` is `convos[0:]`), so every
entry is formatted and the fallback message is not returned; a negative
limit `-k` is not rejected but drops the first `k` entries
(`convos[k:]`). -/
theorem c10_limit_zero_and_negative (sms : List (List Char × Json))
    (l : List Json) (c0 : Json) (cs : List Json) (hl : l = c0 :: cs)
    (hconv : jlook ("conversations".toList) sms = some (.arr l))
    (lines : List (List Char)) (hb : buildLines l = .ok lines) :
    getConversations (.stored (.obj sms)) (.obj [("limit".toList, .num 0)]) =
      .ok (List.intercalate ['\n'] lines) ∧
    List.intercalate ['\n'] lines ≠ fallbackConvos ∧
    (∀ (k : Nat) (c1 : Json) (cs1 : List Json) (lines2 : List (List Char)),
      l.drop k = c1 :: cs1 → buildLines (l.drop k) = .ok lines2 →
      getConversations (.stored (.obj sms))
          (.obj [("limit".toList, .num (-(k : Int)))]) =
        .ok (List.intercalate ['\n'] lines2)) := by
  subst hl
  refine ⟨?_, ?_, ?_⟩
  · simp only [getConversations, readSharedState, jGet_obj, hconv,
      Option.getD_some, exbind_ok, jlook, asIntLike, pyTail, neg_zero,
      Int.toNat_zero, List.drop_zero, List.isEmpty_cons, hb, le_refl,
      Bool.false_eq_true, if_false, if_true, eq_self_iff_true, reduceIte]
  · obtain ⟨a, rest, hsh⟩ := buildLines_cons_shape c0 cs lines hb
    obtain ⟨t, hti⟩ := intercalate_cons_head '[' a rest
    rw [hsh, hti]
    intro hfall
    have hN : fallbackConvos =
        'N' :: "o conversations yet. The Oracle bot may not be running.".toList :=
      rfl
    rw [hN] at hfall
    injection hfall with hc ht
    exact absurd hc (by decide)
  · intro k c1 cs1 lines2 hd hb2
    rw [hd] at hb2
    simp only [getConversations, readSharedState, jGet_obj, hconv,
      Option.getD_some, exbind_ok, jlook, asIntLike, pyTail, neg_neg,
      Int.toNat_natCast, Int.natCast_nonneg, hd, hb2, List.isEmpty_cons,
      Bool.false_eq_true, if_false, if_true, eq_self_iff_true, reduceIte]

theorem c10_witness :
    ([convEntry 0 ("q".toList) ("a".toList), convEntry 1 ("x".toList) ("y".toList)] =
      convEntry 0 ("q".toList) ("a".toList) ::
        [convEntry 1 ("x".toList) ("y".toList)]) ∧
    jlook ("conversations".toList) [("conversations".toList,
        .arr [convEntry 0 ("q".toList) ("a".toList),
              convEntry 1 ("x".toList) ("y".toList)])] =
      some (.arr [convEntry 0 ("q".toList) ("a".toList),
                  convEntry 1 ("x".toList) ("y".toList)]) ∧
    (∃ lines, buildLines [convEntry 0 ("q".toList) ("a".toList),
        convEntry 1 ("x".toList) ("y".toList)] = .ok lines ∧
      getConversations (.stored (.obj [("conversations".toList,
          .arr [convEntry 0 ("q".toList) ("a".toList),
                convEntry 1 ("x".toList) ("y".toList)])]))
          (.obj [("limit".toList, .num 0)]) =
        .ok (List.intercalate ['\n'] lines) ∧
      List.intercalate ['\n'] lines ≠ fallbackConvos) ∧
    (∃ lines2, buildLines [convEntry 1 ("x".toList) ("y".toList)] = .ok lines2 ∧
      getConversations (.stored (.obj [("conversations".toList,
          .arr [convEntry 0 ("q".toList) ("a".toList),
                convEntry 1 ("x".toList) ("y".toList)])]))
          (.obj [("limit".toList, .num (-(1 : Int)))]) =
        .ok (List.intercalate ['\n'] lines2)) := by
  have h := c10_limit_zero_and_negative
    [("conversations".toList,
        .arr [convEntry 0 ("q".toList) ("a".toList),
              convEntry 1 ("x".toList) ("y".toList)])]
    [convEntry 0 ("q".toList) ("a".toList), convEntry 1 ("x".toList) ("y".toList)]
    (convEntry 0 ("q".toList) ("a".toList))
    [convEntry 1 ("x".toList) ("y".toList)] rfl rfl _ rfl
  refine ⟨rfl, rfl, ⟨_, rfl, h.1, h.2.1⟩, ⟨_, rfl, ?_⟩⟩
  exact h.2.2 1 (convEntry 1 ("x".toList) ("y".toList)) [] _ rfl rfl

end OracleMCP
